import Mathlib

/-!
# FormBuilder: submission validation and analytics

A shallow embedding of `backend/api/handlers.go` (`validateSubmission`),
`backend/api/analytics.go` (`computeAnalytics`) and `backend/api/websocket.go`
(`register`, `unregister`, `BroadcastResponse`), with the data model of
`backend/api/models.go`.

Modelling conventions.
* A Go `interface{}` answer is a `Value`: the dynamic types a decoded JSON body can
  hold (`nil`, `string`, `float64`, `bool`, `[]interface{}`, `map[string]interface{}`),
  and `primitive.A`, the type that the cursor of the MongoDB driver gives a stored
  array.
* A finite `float64` is the rational number that it denotes; `float64(n)`, the sums
  and the quotient of the averages round to the nearest `float64` (`round64`). The
  skip rates and the completion rate are kept as exact rationals.
* A Go `map` is a `GoMap`: a list of key/value entries read through `get?`.
* A run-time panic of the Go code is an explicit outcome.
* The calls on the registry of the observers are taken one after the other.
-/

namespace FormBuilder

/-! ## Data model (`models.go`) -/

/-- Dynamic values held by a Go `interface{}`: those of a decoded JSON document, and
`arr`, a `primitive.A`, which is a named type different from `[]interface{}`. -/
inductive Value where
  | null
  | str (s : String)
  | num (x : ℚ)
  | bool (b : Bool)
  | list (items : List Value)
  | obj (entries : List (String × Value))
  | arr (items : List Value)

/-- Go maps, as a list of entries; `get?` reads the first entry of a key. -/
structure GoMap (κ α : Type) where
  entries : List (κ × α)

namespace GoMap

variable {κ α : Type}

/-- The empty map `map[K]V{}` (a nil map reads the same way). -/
def empty : GoMap κ α := ⟨[]⟩

/-- Two-valued lookup `v, ok := m[k]`. -/
def get? [DecidableEq κ] (m : GoMap κ α) (k : κ) : Option α :=
  (m.entries.find? (fun p => decide (p.1 = k))).map Prod.snd

/-- One-valued lookup `m[k]`, with the zero value `d` for a missing key. -/
def getD [DecidableEq κ] (m : GoMap κ α) (k : κ) (d : α) : α :=
  (m.get? k).getD d

/-- Assignment `m[k] = v`. -/
def set [DecidableEq κ] (m : GoMap κ α) (k : κ) (v : α) : GoMap κ α :=
  ⟨(k, v) :: m.entries.filter (fun p => decide (p.1 ≠ k))⟩

/-- The keys of the map. -/
def keys (m : GoMap κ α) : List κ := m.entries.map Prod.fst

/-- Increment `m[k]++` of an integer-valued map. -/
def incr [DecidableEq κ] (m : GoMap κ Nat) (k : κ) : GoMap κ Nat :=
  m.set k (m.getD k 0 + 1)

end GoMap

/-- Visibility condition `ShowIf` of `models.go`. -/
structure ShowIf where
  FieldID : String
  Equals : Value

/-- Form field `Field` of `models.go`; `FieldType` is its member `Type`. -/
structure Field where
  ID : String
  Label : String
  FieldType : String
  Required : Bool
  Options : List String
  Min : Int
  Max : Int
  ShowIf : Option ShowIf
  IsPII : Bool

/-- The part of `Form` read by validation and analytics: its ordered fields. -/
structure Form where
  Fields : List Field

/-- Answer map `map[string]interface{}` of a submission. -/
abbrev Answers := GoMap String Value

/-! ## Values of the type `float64` -/

/-- Values of the type `float64`: the finite ones, by the rational number that they
denote (the sign of a zero is not kept), the two infinities and NaN. -/
inductive F64 where
  | finite (x : ℚ)
  | posInf
  | negInf
  | nan
  deriving DecidableEq

/-- The integer nearest to `n / d`, the even one of the two when `n / d` lies halfway. -/
def roundHalfEven (n d : Nat) : Nat :=
  let q := n / d
  let r := n % d
  if 2 * r < d then q else if d < 2 * r then q + 1 else if q % 2 = 0 then q else q + 1

/-- The number of binary digits of `n`, by halving at most `fuel` times. -/
def bitLengthAux : Nat → Nat → Nat
  | 0, _ => 0
  | fuel + 1, n => if n = 0 then 0 else 1 + bitLengthAux fuel (n / 2)

/-- The number of binary digits of `n`. -/
def bitLength (n : Nat) : Nat := bitLengthAux n n

/-- Whether `2 ^ k ≤ n / d`. -/
def atLeastPow (n d : Nat) (k : Int) : Bool :=
  if 0 ≤ k then decide (d * 2 ^ k.toNat ≤ n) else decide (d ≤ n * 2 ^ (-k).toNat)

/-- The integer part of the binary logarithm of `n / d`, for positive `n` and `d`. -/
def floorLog2 (n d : Nat) : Int :=
  let k : Int := (bitLength n : Int) - (bitLength d : Int)
  if atLeastPow n d k then k else k - 1

/-- The positive number `n / d` rounded to 53 binary digits, or to a multiple of
`2 ^ (-1074)` when it is subnormal; `none` when the result passes the largest finite
`float64`. -/
def roundMagnitude (n d : Nat) : Option ℚ :=
  let e : Int := max (floorLog2 n d - 52) (-1074)
  let m : Nat :=
    if 0 ≤ e then roundHalfEven n (d * 2 ^ e.toNat) else roundHalfEven (n * 2 ^ (-e).toNat) d
  let x : ℚ := if 0 ≤ e then ((m * 2 ^ e.toNat : Nat) : ℚ) else mkRat (m : Int) (2 ^ (-e).toNat)
  if x < ((2 ^ 1024 : Nat) : ℚ) then some x else none

/-- Rounding of a real result to the nearest `float64`, ties to even. -/
def round64 (q : ℚ) : F64 :=
  if q = 0 then .finite 0
  else
    match roundMagnitude q.num.natAbs q.den with
    | some x => .finite (if q < 0 then -x else x)
    | none => if q < 0 then .negInf else .posInf

/-- The conversion `float64(n)` of an `int`. -/
def float64OfInt (n : Int) : F64 := round64 (n : ℚ)

/-- The sum `a + b` of two `float64`. -/
def F64.add : F64 → F64 → F64
  | .finite a, .finite b => round64 (a + b)
  | .nan, _ => .nan
  | _, .nan => .nan
  | .posInf, .negInf => .nan
  | .negInf, .posInf => .nan
  | .posInf, _ => .posInf
  | _, .posInf => .posInf
  | .negInf, _ => .negInf
  | _, .negInf => .negInf

/-- The quotient `a / b` of two `float64`. -/
def F64.div : F64 → F64 → F64
  | .finite a, .finite b =>
    if b = 0 then (if a = 0 then .nan else if a < 0 then .negInf else .posInf)
    else round64 (a / b)
  | .nan, _ => .nan
  | _, .nan => .nan
  | .finite _, _ => .finite 0
  | .posInf, .finite b => if b < 0 then .negInf else .posInf
  | .negInf, .finite b => if b < 0 then .posInf else .negInf
  | _, _ => .nan

/-- The comparison `a < b` of two `float64`. -/
def F64.lt : F64 → F64 → Bool
  | .finite a, .finite b => decide (a < b)
  | .nan, _ => false
  | _, .nan => false
  | .negInf, .negInf => false
  | .negInf, _ => true
  | .posInf, _ => false
  | _, .posInf => true
  | _, .negInf => false

/-! ## Validation (`handlers.go`) -/

/-- Go comparison `a == b` of two interface values: values of different dynamic
types are unequal, values of one comparable type are compared, and two values of
one uncomparable type (slice, map) make the comparison panic (`none`). -/
def ifaceEq : Value → Value → Option Bool
  | .null, .null => some true
  | .str a, .str b => some (decide (a = b))
  | .num a, .num b => some (decide (a = b))
  | .bool a, .bool b => some (decide (a = b))
  | .list _, .list _ => none
  | .obj _, .obj _ => none
  | .arr _, .arr _ => none
  | _, _ => some false

/-- The errors built by `validateSubmission`, one constructor for each
`errors.New` call, carrying the string appended to the fixed text. -/
inductive ValidationError where
  | missingRequired (subject : String)
  | invalidText (subject : String)
  | invalidChoice (subject : String)
  | choiceNotInOptions (subject : String)
  | invalidSelections (subject : String)
  | invalidSelectionValue (subject : String)
  | selectionNotAllowed (subject : String)
  | invalidRating (subject : String)
  | ratingOutOfRange (subject : String)
  deriving DecidableEq

/-- The text of the Go error. -/
def ValidationError.message : ValidationError → String
  | .missingRequired s => "missing required field: " ++ s
  | .invalidText s => "invalid text for: " ++ s
  | .invalidChoice s => "invalid choice for: " ++ s
  | .choiceNotInOptions s => "choice not in options for: " ++ s
  | .invalidSelections s => "invalid selections for: " ++ s
  | .invalidSelectionValue s => "invalid selection value for: " ++ s
  | .selectionNotAllowed s => "selection value not allowed for: " ++ s
  | .invalidRating s => "invalid rating for: " ++ s
  | .ratingOutOfRange s => "rating out of range for: " ++ s

/-- Error classes of the specification's taxonomy. -/
inductive ErrorKind where
  | MissingRequired
  | InvalidValue
  | ValueNotAllowed
  | OutOfRange
  deriving DecidableEq

/-- The specification's class of each error: the required check gives
`MissingRequired`, and a failed type check gives `InvalidValue` for `text`,
`ValueNotAllowed` for `single_choice` and `multi_select`, `OutOfRange` for `rating`. -/
def ValidationError.kind : ValidationError → ErrorKind
  | .missingRequired _ => .MissingRequired
  | .invalidText _ => .InvalidValue
  | .invalidChoice _ => .ValueNotAllowed
  | .choiceNotInOptions _ => .ValueNotAllowed
  | .invalidSelections _ => .ValueNotAllowed
  | .invalidSelectionValue _ => .ValueNotAllowed
  | .selectionNotAllowed _ => .ValueNotAllowed
  | .invalidRating _ => .OutOfRange
  | .ratingOutOfRange _ => .OutOfRange

/-- Result of a validation: `nil`, an error, or a run-time panic. -/
inductive Outcome where
  | ok
  | error (e : ValidationError)
  | panic
  deriving DecidableEq

/-- The loop `for _, opt := range field.Options { if opt == s { allowed = true; break } }`. -/
def allowedOption (options : List String) (s : String) : Bool :=
  options.any (fun opt => decide (opt = s))

/-- The loop over the elements of a `multi_select` answer. -/
def checkSelections (field : Field) : List Value → Outcome
  | [] => .ok
  | .str s :: rest =>
    if allowedOption field.Options s then checkSelections field rest
    else .error (.selectionNotAllowed field.Label)
  | _ :: _ => .error (.invalidSelectionValue field.Label)

/-- Case `"text"` of the switch. -/
def checkText (field : Field) (v : Value) : Outcome :=
  match v with
  | .str s => if s.length = 0 then .error (.invalidText field.Label) else .ok
  | _ => .error (.invalidText field.Label)

/-- Case `"single_choice"` of the switch. -/
def checkSingleChoice (field : Field) (v : Value) : Outcome :=
  match v with
  | .str s =>
    if s = "" then .error (.invalidChoice field.Label)
    else if allowedOption field.Options s then .ok
    else .error (.choiceNotInOptions field.Label)
  | _ => .error (.invalidChoice field.Label)

/-- Case `"multi_select"` of the switch. -/
def checkMultiSelect (field : Field) (v : Value) : Outcome :=
  match v with
  | .list arr => checkSelections field arr
  | _ => .error (.invalidSelections field.Label)

/-- Case `"rating"` of the switch. -/
def checkRating (field : Field) (v : Value) : Outcome :=
  match v with
  | .num x =>
    let min := if field.Min = 0 then 1 else field.Min
    let max := if field.Max = 0 then 5 else field.Max
    if F64.lt (.finite x) (float64OfInt min) || F64.lt (float64OfInt max) (.finite x) then
      .error (.ratingOutOfRange field.Label)
    else .ok
  | _ => .error (.invalidRating field.Label)

/-- The `switch field.Type` of `validateSubmission`, on a present answer `v`. -/
def checkType (field : Field) (v : Value) : Outcome :=
  if field.FieldType = "text" then checkText field v
  else if field.FieldType = "single_choice" then checkSingleChoice field v
  else if field.FieldType = "multi_select" then checkMultiSelect field v
  else if field.FieldType = "rating" then checkRating field v
  else .ok

/-- The conditional visibility check: `some true` when the checks below it run,
`some false` when the loop continues with the next field, `none` on a panic. -/
def visible (field : Field) (answers : Answers) : Option Bool :=
  match field.ShowIf with
  | none => some true
  | some c =>
    match answers.get? c.FieldID with
    | some val => ifaceEq val c.Equals
    | none => some false

/-- The block `if field.Required { if _, ok := answers[field.ID]; !ok { return ... } }`. -/
def requiredCheck (field : Field) (answers : Answers) : Outcome :=
  if field.Required && (answers.get? field.ID).isNone then
    .error (.missingRequired field.Label)
  else .ok

/-- The block `if v, ok := answers[field.ID]; ok { switch field.Type ... }`. -/
def typeCheck (field : Field) (answers : Answers) : Outcome :=
  match answers.get? field.ID with
  | some v => checkType field v
  | none => .ok

/-- One iteration of the loop of `validateSubmission`; `ok` continues the loop. -/
def validateField (field : Field) (answers : Answers) : Outcome :=
  match visible field answers with
  | none => .panic
  | some false => .ok
  | some true =>
    match requiredCheck field answers with
    | .ok => typeCheck field answers
    | r => r

/-- The loop over the fields, left at the first outcome that is not `ok`. -/
def validateFields (answers : Answers) : List Field → Outcome
  | [] => .ok
  | field :: rest =>
    match validateField field answers with
    | .ok => validateFields answers rest
    | r => r

/-- Function `validateSubmission(f *Form, answers map[string]interface{}) error`. -/
def validateSubmission (f : Form) (answers : Answers) : Outcome :=
  validateFields answers f.Fields

/-! ## Analytics (`analytics.go`) -/

/-- The part of `Response` read by the analytics: the answers and the calendar day
of `CreatedAt` (the day that `CreatedAt.Format("2006-01-02")` prints). -/
structure Response where
  Answers : Answers
  CreatedAt : Int

/-- Type `Distribution` of `models.go`; a nil `Buckets` map reads as the empty map. -/
structure Distribution where
  Buckets : GoMap String Nat

/-- Type `TrendData`, the date being a calendar day. -/
structure TrendData where
  Date : Int
  Count : Nat

/-- Type `SkippedField`. -/
structure SkippedField where
  FieldID : String
  FieldName : String
  SkipCount : Nat
  SkipRate : ℚ

/-- Type `EnhancedAnalytics`, the report. -/
structure EnhancedAnalytics where
  Count : Nat
  FieldBreakdown : GoMap String Distribution
  AverageRating : GoMap String F64
  ResponseTrends : List TrendData
  MostCommonAnswers : GoMap String String
  SkippedFields : List SkippedField
  CompletionRate : ℚ

/-- The local variables of `computeAnalytics` that the scan of the responses updates,
with the map `an.FieldBreakdown`. -/
structure Scan where
  count : Nat
  sums : GoMap String F64
  counts : GoMap String Nat
  dailyCounts : GoMap Int Nat
  fieldCounts : GoMap String Nat
  fieldSkips : GoMap String Nat
  FieldBreakdown : GoMap String Distribution

/-- The state before the first response. -/
def Scan.init : Scan :=
  ⟨0, GoMap.empty, GoMap.empty, GoMap.empty, GoMap.empty, GoMap.empty, GoMap.empty⟩

/-- The loop `for _, it := range v { if s, ok := it.(string); ok { d.Buckets[s]++ } }`. -/
def countSelections (buckets : GoMap String Nat) : List Value → GoMap String Nat
  | [] => buckets
  | .str s :: rest => countSelections (buckets.incr s) rest
  | _ :: rest => countSelections buckets rest

/-- The type switch on a present, non-nil answer `val` of `field`, followed by
`an.FieldBreakdown[field.ID] = d`. -/
def classify (st : Scan) (field : Field) (val : Value) : Scan :=
  let d := st.FieldBreakdown.getD field.ID ⟨GoMap.empty⟩
  match val with
  | .str v =>
    if v ≠ "" then
      { st with FieldBreakdown := st.FieldBreakdown.set field.ID ⟨d.Buckets.incr v⟩ }
    else
      { st with
        fieldSkips := st.fieldSkips.incr field.ID
        FieldBreakdown := st.FieldBreakdown.set field.ID d }
  | .num v =>
    { st with
      sums := st.sums.set field.ID (F64.add (st.sums.getD field.ID (.finite 0)) (.finite v))
      counts := st.counts.incr field.ID
      FieldBreakdown := st.FieldBreakdown.set field.ID ⟨d.Buckets.incr "value"⟩ }
  | .bool v =>
    { st with
      FieldBreakdown :=
        st.FieldBreakdown.set field.ID ⟨d.Buckets.incr (if v then "true" else "false")⟩ }
  | .list v =>
    if v.length > 0 then
      { st with FieldBreakdown := st.FieldBreakdown.set field.ID ⟨countSelections d.Buckets v⟩ }
    else
      { st with
        fieldSkips := st.fieldSkips.incr field.ID
        FieldBreakdown := st.FieldBreakdown.set field.ID d }
  | _ =>
    { st with FieldBreakdown := st.FieldBreakdown.set field.ID ⟨d.Buckets.incr "other"⟩ }

/-- The body of `for _, field := range form.Fields` for the response `r`. -/
def analyzeField (r : Response) (st : Scan) (field : Field) : Scan :=
  if field.IsPII then st
  else
    let st := { st with fieldCounts := st.fieldCounts.incr field.ID }
    match r.Answers.get? field.ID with
    | none => { st with fieldSkips := st.fieldSkips.incr field.ID }
    | some .null => { st with fieldSkips := st.fieldSkips.incr field.ID }
    | some val => classify st field val

mutual
/-- What `cur.Decode(&r)` yields for a stored answer: the driver decodes an array
as a `primitive.A` and leaves the other shapes of a JSON value as they are. -/
def cursorDecode : Value → Value
  | .list items => .arr (cursorDecodeList items)
  | .arr items => .arr (cursorDecodeList items)
  | .obj entries => .obj (cursorDecodeEntries entries)
  | v => v
/-- The decoded elements of an array. -/
def cursorDecodeList : List Value → List Value
  | [] => []
  | v :: vs => cursorDecode v :: cursorDecodeList vs
/-- The decoded members of an embedded document. -/
def cursorDecodeEntries : List (String × Value) → List (String × Value)
  | [] => []
  | (k, v) :: es => (k, cursorDecode v) :: cursorDecodeEntries es
end

/-- The response that `cur.Decode(&r)` yields for a stored response. -/
def decodeResponse (r : Response) : Response :=
  { r with Answers := ⟨r.Answers.entries.map (fun p => (p.1, cursorDecode p.2))⟩ }

/-- The body of `for cur.Next(ctx)` for the decoded response `r`. -/
def analyzeResponse (form : Form) (st : Scan) (r : Response) : Scan :=
  let st := { st with count := st.count + 1, dailyCounts := st.dailyCounts.incr r.CreatedAt }
  form.Fields.foldl (analyzeField r) st

/-- The scan of all the stored responses of the form, each decoded by the cursor. -/
def scanResponses (form : Form) (responses : List Response) : Scan :=
  (responses.map decodeResponse).foldl (analyzeResponse form) Scan.init

/-- The loop `for k := range sums` that fills `an.AverageRating`. -/
def averageRating (sums : GoMap String F64) (counts : GoMap String Nat) : GoMap String F64 :=
  sums.keys.foldl
    (fun avg k =>
      if counts.getD k 0 > 0 then
        avg.set k (F64.div (sums.getD k (.finite 0)) (float64OfInt (counts.getD k 0)))
      else avg)
    GoMap.empty

/-- The loop `for answer, answerCount := range dist.Buckets` over the buckets in the
order of the iteration: the pair `(maxCount, mostCommon)` it ends with. -/
def mostCommon (buckets : List (String × Nat)) : Nat × String :=
  buckets.foldl (fun best p => if p.2 > best.1 then (p.2, p.1) else best) (0, "")

/-- The loop `for fieldID, dist := range an.FieldBreakdown` that fills
`an.MostCommonAnswers`; `rangeOrder fieldID` is the order in which the run time
iterates over the buckets of the distribution of `fieldID`. -/
def mostCommonAnswers (rangeOrder : String → List (String × Nat) → List (String × Nat))
    (breakdown : GoMap String Distribution) : GoMap String String :=
  breakdown.entries.foldl
    (fun out p =>
      let best := (mostCommon (rangeOrder p.1 p.2.Buckets.entries)).2
      if best ≠ "" then out.set p.1 best else out)
    GoMap.empty

/-- The loop `for i := 6; i >= 0; i--` that fills `an.ResponseTrends`; `today` is
the calendar day of `time.Now()`. -/
def responseTrends (today : Int) (dailyCounts : GoMap Int Nat) : List TrendData :=
  [6, 5, 4, 3, 2, 1, 0].map (fun i => ⟨today - i, dailyCounts.getD (today - i) 0⟩)

/-- The loop that fills `an.SkippedFields`. -/
def skippedFields (fields : List Field) (fieldSkips : GoMap String Nat) (count : Nat) :
    List SkippedField :=
  (fields.filter (fun field => !field.IsPII)).map
    (fun field =>
      let skipCount := fieldSkips.getD field.ID 0
      let skipRate : ℚ := if count > 0 then (skipCount : ℚ) / (count : ℚ) * 100 else 0
      ⟨field.ID, field.Label, skipCount, skipRate⟩)

/-- The sum `totalAnswered` of the completion rate: every entry of `fieldCounts`
adds its count minus `fieldSkips[form.Fields[0].ID]`. -/
def totalAnswered (first : Field) (fieldCounts fieldSkips : GoMap String Nat) : Int :=
  fieldCounts.entries.foldl
    (fun total p => total + ((p.2 : Int) - (fieldSkips.getD first.ID 0 : Int))) 0

/-- The value given to `an.CompletionRate` (zero when it is not assigned). -/
def completionRate (fields : List Field) (count : Nat)
    (fieldCounts fieldSkips : GoMap String Nat) : ℚ :=
  match fields with
  | [] => 0
  | first :: _ =>
    if count > 0 then
      (totalAnswered first fieldCounts fieldSkips : ℚ) / ((fields.length * count : Nat) : ℚ) * 100
    else 0

/-- Function `computeAnalytics`, on the decoded form, the stored responses that the
cursor reads in order, the calendar day `today` of `time.Now()` and the orders `rangeOrder`
in which the run time iterates over the buckets of the distributions. -/
def computeAnalytics (form : Form) (responses : List Response) (today : Int)
    (rangeOrder : String → List (String × Nat) → List (String × Nat)) : EnhancedAnalytics :=
  let st := scanResponses form responses
  { Count := st.count
    FieldBreakdown := st.FieldBreakdown
    AverageRating := averageRating st.sums st.counts
    ResponseTrends := responseTrends today st.dailyCounts
    MostCommonAnswers := mostCommonAnswers rangeOrder st.FieldBreakdown
    SkippedFields := skippedFields form.Fields st.fieldSkips st.count
    CompletionRate := completionRate form.Fields st.count st.fieldCounts st.fieldSkips }

/-- The count that the report holds in the bucket `label` of the field `id`
(zero when the field or the bucket is missing). -/
def EnhancedAnalytics.bucketCount (an : EnhancedAnalytics) (id label : String) : Nat :=
  match an.FieldBreakdown.get? id with
  | none => 0
  | some d => d.Buckets.getD label 0

/-! ## Live subscriptions (`websocket.go`) -/

/-- Deletion `delete(m, k)`. -/
def GoMap.erase {κ α : Type} [DecidableEq κ] (m : GoMap κ α) (k : κ) : GoMap κ α :=
  ⟨m.entries.filter (fun p => decide (p.1 ≠ k))⟩

/-- A handle `*wsClient`: `conn` identifies the connection, and with it the client
that `AttachWebsocket` allocates for the connection; `formID` is the member. -/
structure WsClient where
  conn : Nat
  formID : String
  deriving DecidableEq

/-- The registry `clients`, of the type `map[string]map[*wsClient]bool`. -/
abbrev Clients := GoMap String (GoMap WsClient Bool)

/-- The registry at the start of the process, `map[string]map[*wsClient]bool{}`. -/
def Clients.initial : Clients := GoMap.empty

/-- Function `register`: the set of the form is made when it is nil, and the
client is put in it. -/
def register (clients : Clients) (cl : WsClient) : Clients :=
  let set := clients.getD cl.formID GoMap.empty
  clients.set cl.formID (set.set cl true)

/-- Function `unregister`, on the registry: the client is deleted from the set of its
form when the form has a set. -/
def unregister (clients : Clients) (cl : WsClient) : Clients :=
  match clients.get? cl.formID with
  | some set => clients.set cl.formID (set.erase cl)
  | none => clients

/-- The message `map[string]interface{}{"type": "response_created", "data": payload}`. -/
def responseCreated (payload : Value) : GoMap String Value :=
  ⟨[("type", .str "response_created"), ("data", payload)]⟩

/-- One call `cl.conn.WriteJSON(message)` with its result: `failed` when the error
that it returns is not nil. -/
structure Write where
  client : WsClient
  message : GoMap String Value
  failed : Bool

/-- What a call of `BroadcastResponse` leaves: the registry and the calls of
`WriteJSON` in the order in which they were made. -/
structure Broadcast where
  clients : Clients
  writes : List Write

/-- Function `BroadcastResponse`. `writeJSON cl message` tells whether the write to
the connection of `cl` fails, and `rangeOrder` is the order in which the run time
iterates over the set. The result of every write is dropped (`_ =`). -/
def BroadcastResponse (clients : Clients) (formID : String) (payload : Value)
    (writeJSON : WsClient → GoMap String Value → Bool)
    (rangeOrder : List WsClient → List WsClient) : Broadcast :=
  let set := clients.getD formID GoMap.empty
  { clients := clients
    writes := (rangeOrder set.keys).map
      (fun cl => ⟨cl, responseCreated payload, writeJSON cl (responseCreated payload)⟩) }

/-- A call that changes the registry. -/
inductive RegistryCall where
  | register (cl : WsClient)
  | unregister (cl : WsClient)

/-- The registry after one call. -/
def RegistryCall.apply (clients : Clients) : RegistryCall → Clients
  | .register cl => FormBuilder.register clients cl
  | .unregister cl => FormBuilder.unregister clients cl

/-- The registry after a sequence of calls, from the registry of the start. -/
def runCalls (calls : List RegistryCall) : Clients :=
  calls.foldl RegistryCall.apply Clients.initial

/-! ## Notions of the specification -/

/-- A field is shown for the answers: it has no `ShowIf`, or the field that its
`ShowIf` names has an answer that compares equal to `ShowIf.Equals`. -/
def Shown (field : Field) (answers : Answers) : Prop :=
  field.ShowIf = none ∨
    ∃ c val, field.ShowIf = some c ∧ answers.get? c.FieldID = some val ∧
      ifaceEq val c.Equals = some true

/-- A field is hidden for the answers: the field that its `ShowIf` names has no
answer, or has an answer that compares different from `ShowIf.Equals`. -/
def Hidden (field : Field) (answers : Answers) : Prop :=
  ∃ c, field.ShowIf = some c ∧
    (answers.get? c.FieldID = none ∨
      ∃ val, answers.get? c.FieldID = some val ∧ ifaceEq val c.Equals = some false)

/-- The comparison `a ≤ b` of two `float64`. -/
def F64.le : F64 → F64 → Bool
  | .finite a, .finite b => decide (a ≤ b)
  | .nan, _ => false
  | _, .nan => false
  | .negInf, _ => true
  | _, .posInf => true
  | _, _ => false

/-- Lower end of the range of a rating field: `Min`, or 1 when `Min` is zero. -/
def ratingLow (field : Field) : Int := if field.Min = 0 then 1 else field.Min

/-- Upper end of the range of a rating field: `Max`, or 5 when `Max` is zero. -/
def ratingHigh (field : Field) : Int := if field.Max = 0 then 5 else field.Max

/-- The count that the scan holds in the bucket `label` of the field `id`. -/
def Scan.bucketAt (st : Scan) (id label : String) : Nat :=
  match st.FieldBreakdown.get? id with
  | none => 0
  | some d => d.Buckets.getD label 0

/-- The skip count that the scan holds for the field `id`. -/
def Scan.skipsAt (st : Scan) (id : String) : Nat := st.fieldSkips.getD id 0

/-- An element of a list answer is the string `label`. -/
def isString (label : String) : Value → Bool
  | .str s => decide (s = label)
  | _ => false

/-- Skipped answer, in the words of the specification: no entry, the empty string or
the empty list. -/
def statedSkip : Option Value → Bool
  | none => true
  | some (.str s) => decide (s = "")
  | some (.list items) => items.isEmpty
  | some _ => false

/-- What an answer adds to the bucket `label`, in the words of the specification: a
non-empty string adds 1 to its own bucket, a number to `value`, a boolean to `true` or
`false`, a list 1 for each of its elements that is the string `label`, and any other
shape adds 1 to `other`. -/
def statedShare (label : String) : Option Value → Nat
  | none => 0
  | some (.str s) => if s ≠ "" ∧ s = label then 1 else 0
  | some (.num _) => if label = "value" then 1 else 0
  | some (.bool b) => if label = (if b then "true" else "false") then 1 else 0
  | some (.list items) => items.countP (isString label)
  | some _ => if label = "other" then 1 else 0

/-- The buckets have distinct labels, none of them empty, and positive counts. -/
def GoodBuckets (b : GoMap String Nat) : Prop :=
  b.keys.Nodup ∧ ∀ p ∈ b.entries, p.1 ≠ "" ∧ 0 < p.2

/-- The distributions have distinct field identifiers, and each has good buckets. -/
def GoodBreakdown (fb : GoMap String Distribution) : Prop :=
  fb.keys.Nodup ∧ ∀ p ∈ fb.entries, GoodBuckets p.2.Buckets

/-- The stored answer is a list. -/
def isListAnswer : Option Value → Bool
  | some (.list _) => true
  | _ => false

/-- The entry of the answer is the JSON `null`. -/
def isNull : Option Value → Bool
  | some .null => true
  | _ => false

/-- Skipped answer, amended: a skipped answer of the specification, or `null`. -/
def scanSkip (a : Option Value) : Bool := statedSkip a || isNull a

/-- What an answer adds to the bucket `label`, amended: `null` adds nothing. -/
def scanShare (label : String) (a : Option Value) : Nat :=
  if isNull a then 0 else statedShare label a

/-- The buckets of a distribution after the type switch of the scan on `val`. -/
def bucketsAfter (buckets : GoMap String Nat) : Value → GoMap String Nat
  | .str v => if v ≠ "" then buckets.incr v else buckets
  | .num _ => buckets.incr "value"
  | .bool v => buckets.incr (if v then "true" else "false")
  | .list v => if v.length > 0 then countSelections buckets v else buckets
  | _ => buckets.incr "other"

/-- The completion rate in the words of the specification: 100 times the sum, over
the fields that the scan counted, of the count of the field minus the skip count of
that same field, divided by the number of fields times the number of submissions. -/
def statedCompletionRate (form : Form) (responses : List Response) : ℚ :=
  let st := scanResponses form responses
  100 * (((st.fieldCounts.entries.map
      (fun p => (p.2 : Int) - (st.fieldSkips.getD p.1 0 : Int))).sum : Int) : ℚ) /
    ((form.Fields.length * st.count : Nat) : ℚ)

/-- Some field of the list is not PII and has the identifier `id`. -/
def Analyzable (fields : List Field) (id : String) : Prop :=
  ∃ g ∈ fields, g.IsPII = false ∧ g.ID = id

/-- The number of fields of the list that are not PII and have the identifier `id`. -/
def analyzed (fields : List Field) (id : String) : Nat :=
  fields.countP (fun g => !g.IsPII && decide (g.ID = id))

/-- The number that an answer holds, when it is a number. -/
def numberOf : Option Value → Option ℚ
  | some (.num x) => some x
  | _ => none

/-- The numeric answers to the field `id`, in the order of the submissions. -/
def numericAnswers (responses : List Response) (id : String) : List ℚ :=
  responses.filterMap (fun r => numberOf (r.Answers.get? id))

/-- The running sum of the scan: the numbers are added to `s` one by one, each sum
rounded to a `float64`. -/
def addAll (s : F64) (xs : List ℚ) : F64 :=
  xs.foldl (fun acc x => F64.add acc (.finite x)) s

/-- The additions of one submission: the number that it holds, `m` times. -/
def entriesOf (m : Nat) : Option ℚ → List ℚ
  | some x => List.replicate m x
  | none => []

/-- The numbers that the scan adds for the field `id`: the numeric answers in the order
of the submissions, each one once for every field of the list that is not PII and has
the identifier `id`. -/
def numericEntries (fields : List Field) (responses : List Response) (id : String) :
    List ℚ :=
  (numericAnswers responses id).flatMap (fun x => List.replicate (analyzed fields id) x)

/-- The handles in the set of `formID`. -/
def registered (clients : Clients) (formID : String) : List WsClient :=
  (clients.getD formID GoMap.empty).keys

/-- The last call of the sequence that names `cl` is a `register`: the client is
currently registered. -/
def lastRegistered (calls : List RegistryCall) (cl : WsClient) : Bool :=
  calls.foldl
    (fun b call =>
      match call with
      | .register c => if c = cl then true else b
      | .unregister c => if c = cl then false else b)
    false

/-! ## Example forms and submissions -/

/-- Choice field `a` of the visibility scenario. -/
def fieldA : Field :=
  { ID := "a", Label := "Attending", FieldType := "single_choice", Required := false,
    Options := ["yes", "no"], Min := 0, Max := 0, ShowIf := none, IsPII := false }

/-- Required field `b`, shown when `a` is answered `yes`. -/
def fieldB : Field :=
  { ID := "b", Label := "Dietary needs", FieldType := "text", Required := true,
    Options := [], Min := 0, Max := 0, ShowIf := some ⟨"a", .str "yes"⟩, IsPII := false }

/-- Rating field with no declared range. -/
def fieldRating : Field :=
  { ID := "q2", Label := "Score", FieldType := "rating", Required := false,
    Options := [], Min := 0, Max := 0, ShowIf := none, IsPII := false }

/-- Rating field whose lower bound `2 ^ 53 + 1` is no `float64`. -/
def fieldWide : Field :=
  { ID := "w", Label := "Visits", FieldType := "rating", Required := true,
    Options := [], Min := 9007199254740993, Max := 18014398509481984, ShowIf := none,
    IsPII := false }

/-- Multi-select field with three options. -/
def fieldToppings : Field :=
  { ID := "t", Label := "Toppings", FieldType := "multi_select", Required := false,
    Options := ["ham", "olives", "basil"], Min := 0, Max := 0, ShowIf := none,
    IsPII := false }

/-- Single-choice field whose option list holds the empty string. -/
def fieldSize : Field :=
  { ID := "s", Label := "Size", FieldType := "single_choice", Required := true,
    Options := ["", "large"], Min := 0, Max := 0, ShowIf := none, IsPII := false }

/-- Required text field `q1`. -/
def fieldQ1 : Field :=
  { ID := "q1", Label := "Name of the project", FieldType := "text", Required := true,
    Options := [], Min := 0, Max := 0, ShowIf := none, IsPII := false }

/-- PII text field `mail`. -/
def fieldMail : Field :=
  { ID := "mail", Label := "E-mail", FieldType := "text", Required := true,
    Options := [], Min := 0, Max := 0, ShowIf := none, IsPII := true }

/-- Field `tags` of the type `checkboxes`, which the validation does not constrain. -/
def fieldTags : Field :=
  { ID := "tags", Label := "Tags", FieldType := "checkboxes", Required := true,
    Options := [], Min := 0, Max := 0, ShowIf := none, IsPII := false }

/-- Form `q1, q2` of the scenario of the specification. -/
def formSurvey : Form := ⟨[fieldQ1, fieldRating]⟩

/-- History with the one submission `q1 = "hi"`, which leaves `q2` out. -/
def historySurvey : List Response := [⟨⟨[("q1", .str "hi")]⟩, 0⟩]

/-- Form `q1, mail`, the second field being PII. -/
def formContact : Form := ⟨[fieldQ1, fieldMail]⟩

/-- History of two submissions that both answer the PII field `mail`. -/
def historyContact : List Response :=
  [⟨⟨[("q1", .str "hi"), ("mail", .str "ann@example.org")]⟩, 3⟩,
    ⟨⟨[("q1", .str "ho"), ("mail", .str "bob@example.org")]⟩, 4⟩]

/-- Form with the one field `tags`. -/
def formTags : Form := ⟨[fieldTags]⟩

/-- History with the one submission `tags = null`. -/
def historyNull : List Response := [⟨⟨[("tags", .null)]⟩, 0⟩]

/-- History with the one stored submission `tags = [""]`; the cursor decodes the list
as a `primitive.A`. -/
def historyEmptyLabel : List Response := [⟨⟨[("tags", .list [.str ""])]⟩, 0⟩]

/-- Iteration over the buckets in the order in which they are stored. -/
def storedOrder : String → List (String × Nat) → List (String × Nat) := fun _ l => l

/-- Two observers of the form `f1` and one of the form `f2`. -/
def observer1 : WsClient := ⟨1, "f1"⟩

/-- Second observer of the form `f1`. -/
def observer2 : WsClient := ⟨2, "f1"⟩

/-- Observer of the form `f2`. -/
def observer3 : WsClient := ⟨3, "f2"⟩

/-- The three observers connect, and a fourth observer `⟨4, "f1"⟩` connects and leaves. -/
def callsThree : List RegistryCall :=
  [.register observer1, .register observer3, .register ⟨4, "f1"⟩, .register observer2,
    .unregister ⟨4, "f1"⟩]

/-- Every write fails. -/
def writeFailing : WsClient → GoMap String Value → Bool := fun _ _ => true

/-- The write to the connection 1 fails, the other writes succeed. -/
def writeFirstFailing : WsClient → GoMap String Value → Bool :=
  fun cl _ => decide (cl.conn = 1)

/-- History with the ratings 4 and 5 and a text answer to the rating field `q2`. -/
def historyRatings : List Response :=
  [⟨⟨[("q1", .str "a"), ("q2", .num 4)]⟩, 1⟩, ⟨⟨[("q1", .str "b"), ("q2", .str "good")]⟩, 1⟩,
    ⟨⟨[("q1", .num 7), ("q2", .num 5)]⟩, 2⟩]

/-- History with the ratings 4, 5 and 5 of the field `q2`. -/
def historyThreeRatings : List Response :=
  [⟨⟨[("q1", .str "a"), ("q2", .num 4)]⟩, 1⟩, ⟨⟨[("q1", .str "b"), ("q2", .num 5)]⟩, 1⟩,
    ⟨⟨[("q1", .str "c"), ("q2", .num 5)]⟩, 2⟩]

/-- History with the answers `10 ^ 16`, 1 and `-10 ^ 16` to the field `tags`. -/
def historyCancelling : List Response :=
  [⟨⟨[("tags", .num 10000000000000000)]⟩, 1⟩, ⟨⟨[("tags", .num 1)]⟩, 1⟩,
    ⟨⟨[("tags", .num (-10000000000000000))]⟩, 2⟩]

/-! ## Lemmas on validation -/

theorem allowedOption_iff (options : List String) (s : String) :
    allowedOption options s = true ↔ s ∈ options := by
  unfold allowedOption
  simp only [List.any_eq_true, decide_eq_true_eq]
  constructor
  · rintro ⟨x, hx, rfl⟩
    exact hx
  · intro h
    exact ⟨s, h, rfl⟩

theorem visible_eq_true_iff (field : Field) (answers : Answers) :
    visible field answers = some true ↔ Shown field answers := by
  unfold visible Shown
  cases hs : field.ShowIf with
  | none => simp
  | some c =>
    cases hg : answers.get? c.FieldID with
    | none => simp [hg]
    | some val => simp [hg]

theorem visible_eq_false_iff (field : Field) (answers : Answers) :
    visible field answers = some false ↔ Hidden field answers := by
  unfold visible Hidden
  cases hs : field.ShowIf with
  | none => simp
  | some c =>
    cases hg : answers.get? c.FieldID with
    | none => simp [hg]
    | some val => simp [hg]

theorem validateField_hidden {field : Field} {answers : Answers}
    (h : Hidden field answers) : validateField field answers = .ok := by
  have hv := (visible_eq_false_iff field answers).mpr h
  simp [validateField, hv]

theorem validateField_shown {field : Field} {answers : Answers}
    (h : Shown field answers) :
    validateField field answers =
      match requiredCheck field answers with
      | .ok => typeCheck field answers
      | r => r := by
  have hv := (visible_eq_true_iff field answers).mpr h
  simp [validateField, hv]

theorem validateField_answered {field : Field} {answers : Answers} {v : Value}
    (h : Shown field answers) (hv : answers.get? field.ID = some v) :
    validateField field answers = checkType field v := by
  rw [validateField_shown h]
  simp [requiredCheck, typeCheck, hv]

theorem validateFields_append (answers : Answers) (P S : List Field) :
    validateFields answers (P ++ S) =
      match validateFields answers P with
      | .ok => validateFields answers S
      | r => r := by
  induction P with
  | nil => simp [validateFields]
  | cons f P ih =>
    simp only [List.cons_append, validateFields]
    cases hf : validateField f answers <;> simp [ih]

theorem validateFields_ok_iff (answers : Answers) (l : List Field) :
    validateFields answers l = .ok ↔ ∀ f ∈ l, validateField f answers = .ok := by
  induction l with
  | nil => simp [validateFields]
  | cons f l ih =>
    simp only [validateFields, List.mem_cons, forall_eq_or_imp]
    cases hf : validateField f answers <;> simp [ih]

theorem validateFields_single (answers : Answers) (f : Field) :
    validateFields answers [f] = validateField f answers := by
  simp only [validateFields]
  cases hf : validateField f answers <;> rfl

theorem validateFields_first {answers : Answers} {P : List Field} (f : Field)
    (S : List Field) (hP : ∀ g ∈ P, validateField g answers = .ok) :
    validateFields answers (P ++ f :: S) =
      match validateField f answers with
      | .ok => validateFields answers S
      | r => r := by
  rw [validateFields_append, (validateFields_ok_iff answers P).mpr hP]
  simp only [validateFields]

theorem validateFields_not_ok {answers : Answers} {l : List Field}
    (h : validateFields answers l ≠ .ok) :
    ∃ P f S, l = P ++ f :: S ∧ (∀ g ∈ P, validateField g answers = .ok) ∧
      validateField f answers ≠ .ok ∧ validateFields answers l = validateField f answers := by
  induction l with
  | nil => exact absurd rfl h
  | cons f l ih =>
    by_cases hf : validateField f answers = .ok
    · have hl : validateFields answers l ≠ .ok := by
        intro hl
        apply h
        simp [validateFields, hf, hl]
      obtain ⟨P, g, S, rfl, hP, hg, hr⟩ := ih hl
      refine ⟨f :: P, g, S, rfl, ?_, hg, ?_⟩
      · intro x hx
        rcases List.mem_cons.mp hx with rfl | hx
        · exact hf
        · exact hP x hx
      · simp only [validateFields, hf]
        exact hr
    · refine ⟨[], f, l, rfl, by simp, hf, ?_⟩
      simp only [validateFields]

theorem checkSelections_ok_iff (field : Field) (items : List Value) :
    checkSelections field items = .ok ↔
      ∀ it ∈ items, ∃ s, it = .str s ∧ s ∈ field.Options := by
  induction items with
  | nil => simp [checkSelections]
  | cons it rest ih =>
    cases it with
    | str s =>
      simp only [checkSelections, List.mem_cons, forall_eq_or_imp]
      by_cases ha : allowedOption field.Options s = true
      · have hm := (allowedOption_iff _ _).mp ha
        simp [ha, ih, hm]
      · have hm : s ∉ field.Options := fun hm => ha ((allowedOption_iff _ _).mpr hm)
        simp [ha, hm]
    | _ => simp [checkSelections]

theorem checkSelections_kind (field : Field) (items : List Value) :
    checkSelections field items = .ok ∨
      ∃ e, checkSelections field items = .error e ∧ e.kind = .ValueNotAllowed := by
  induction items with
  | nil => simp [checkSelections]
  | cons it rest ih =>
    cases it with
    | str s =>
      simp only [checkSelections]
      by_cases ha : allowedOption field.Options s = true
      · simpa [ha] using ih
      · simp [ha, ValidationError.kind]
    | _ => simp [checkSelections, ValidationError.kind]

theorem checkSelections_ne_panic (field : Field) (items : List Value) :
    checkSelections field items ≠ .panic := by
  rcases checkSelections_kind field items with h | ⟨e, h, _⟩ <;> simp [h]

theorem checkType_ne_panic (field : Field) (v : Value) : checkType field v ≠ .panic := by
  unfold checkType
  split_ifs
  · unfold checkText
    cases v <;> simp
    split_ifs <;> simp
  · unfold checkSingleChoice
    cases v <;> simp
    split_ifs <;> simp
  · unfold checkMultiSelect
    cases v <;> simp
    exact checkSelections_ne_panic _ _
  · unfold checkRating
    cases v <;> simp
    split_ifs <;> simp
  · simp

theorem validateField_panic_iff (field : Field) (answers : Answers) :
    validateField field answers = .panic ↔ visible field answers = none := by
  unfold validateField
  cases hv : visible field answers with
  | none => simp
  | some b =>
    cases b with
    | false => simp
    | true =>
      simp only [reduceCtorEq, iff_false]
      unfold requiredCheck typeCheck
      split_ifs
      · simp
      · cases hg : answers.get? field.ID with
        | none => simp
        | some v => simpa using checkType_ne_panic field v

theorem validateField_ok_iff (field : Field) (answers : Answers) :
    validateField field answers = .ok ↔
      Hidden field answers ∨
        (Shown field answers ∧ requiredCheck field answers = .ok ∧
          typeCheck field answers = .ok) := by
  rw [← visible_eq_false_iff, ← visible_eq_true_iff]
  unfold validateField
  cases hv : visible field answers with
  | none => simp
  | some b =>
    cases b with
    | false => simp
    | true =>
      cases hr : requiredCheck field answers <;> simp

/-! ## Lemmas on `float64` -/

theorem bitLengthAux_spec (fuel n : Nat) (hf : n ≤ fuel) (hn : 0 < n) :
    2 ^ (bitLengthAux fuel n - 1) ≤ n ∧ n < 2 ^ bitLengthAux fuel n ∧
      0 < bitLengthAux fuel n := by
  induction fuel generalizing n with
  | zero => omega
  | succ fuel ih =>
    have hn0 : n ≠ 0 := by omega
    simp only [bitLengthAux, hn0, if_false]
    by_cases h2 : n / 2 = 0
    · have h1 : n = 1 := by omega
      subst h1
      have hz : bitLengthAux fuel (1 / 2) = 0 := by
        cases fuel <;> simp [bitLengthAux]
      rw [hz]
      simp
    · obtain ⟨ha, hb, hc⟩ := ih (n / 2) (by omega) (by omega)
      have hp : 2 ^ bitLengthAux fuel (n / 2) = 2 * 2 ^ (bitLengthAux fuel (n / 2) - 1) := by
        conv_lhs => rw [show bitLengthAux fuel (n / 2) = (bitLengthAux fuel (n / 2) - 1) + 1 by omega]
        rw [Nat.pow_succ, Nat.mul_comm]
      refine ⟨?_, ?_, by omega⟩
      · rw [show 1 + bitLengthAux fuel (n / 2) - 1 = bitLengthAux fuel (n / 2) by omega, hp]
        omega
      · rw [show 1 + bitLengthAux fuel (n / 2) = bitLengthAux fuel (n / 2) + 1 by omega,
          Nat.pow_succ]
        omega

theorem bitLength_spec (n : Nat) (hn : 0 < n) :
    2 ^ (bitLength n - 1) ≤ n ∧ n < 2 ^ bitLength n ∧ 0 < bitLength n :=
  bitLengthAux_spec n n (le_refl n) hn

theorem roundHalfEven_one (n : Nat) : roundHalfEven n 1 = n := by
  simp [roundHalfEven, Nat.mod_one]

theorem roundMagnitude_exact (n : Nat) (hn : 0 < n) (h53 : n ≤ 2 ^ 53) :
    roundMagnitude n 1 = some (n : ℚ) := by
  obtain ⟨ha, hb, hc⟩ := bitLength_spec n hn
  have hb1 : bitLength 1 = 1 := by decide
  have hle : bitLength n - 1 ≤ 53 := by
    by_contra hcon
    have h54 : 54 ≤ bitLength n - 1 := by omega
    have : 2 ^ 54 ≤ 2 ^ (bitLength n - 1) := Nat.pow_le_pow_right (by norm_num) h54
    have h3 : (2:Nat) ^ 53 < 2 ^ 54 := by norm_num
    omega
  have hfl : floorLog2 n 1 = ((bitLength n - 1 : Nat) : Int) := by
    unfold floorLog2
    simp only [hb1]
    have hk : (bitLength n : Int) - ((1 : Nat) : Int) = ((bitLength n - 1 : Nat) : Int) := by
      omega
    rw [hk]
    have hat : atLeastPow n 1 ((bitLength n - 1 : Nat) : Int) = true := by
      unfold atLeastPow
      simp only [Int.natCast_nonneg, if_true, Int.toNat_ofNat, Nat.one_mul, decide_eq_true_eq]
      exact ha
    rw [hat]
    simp
  have hlt : ((n : Nat) : ℚ) < ((2 ^ 1024 : Nat) : ℚ) := by
    have h1 : n < 2 ^ 1024 :=
      lt_of_le_of_lt h53 (Nat.pow_lt_pow_right (by omega) (by omega))
    exact_mod_cast h1
  by_cases h53b : bitLength n - 1 = 53
  · have hn53 : n = 2 ^ 53 := by
      rw [h53b] at ha
      omega
    rw [hn53]
    decide!
  · have hb52 : bitLength n - 1 ≤ 52 := by omega
    unfold roundMagnitude
    simp only [hfl]
    have he : max (((bitLength n - 1 : Nat) : Int) - 52) (-1074) =
        ((bitLength n - 1 : Nat) : Int) - 52 := max_eq_left (by omega)
    rw [he]
    by_cases h0 : (0 : Int) ≤ ((bitLength n - 1 : Nat) : Int) - 52
    · have hz : ((bitLength n - 1 : Nat) : Int) - 52 = 0 := by omega
      simp only [hz, le_refl, if_true, Int.toNat_zero, pow_zero, Nat.mul_one,
        roundHalfEven_one]
      rw [if_pos hlt]
    · simp only [h0, if_false, roundHalfEven_one]
      have hx : mkRat ((n * 2 ^ (-(((bitLength n - 1 : Nat) : Int) - 52)).toNat : Nat) : Int)
          (2 ^ (-(((bitLength n - 1 : Nat) : Int) - 52)).toNat) = (n : ℚ) := by
        rw [Rat.mkRat_eq_div]
        push_cast
        field_simp
      rw [hx, if_pos hlt]

theorem round64_ne_nan (q : ℚ) : round64 q ≠ .nan := by
  unfold round64
  by_cases h0 : q = 0
  · simp [h0]
  · rw [if_neg h0]
    cases roundMagnitude q.num.natAbs q.den with
    | none => by_cases hn : q < 0 <;> simp [hn]
    | some x => simp

theorem natAbs_cast_of_neg (n : Int) (h : n < 0) : ((n.natAbs : Nat) : ℚ) = -(n : ℚ) := by
  have hz : ((n.natAbs : Nat) : Int) = -n := by omega
  have h2 : (((n.natAbs : Nat) : Int) : ℚ) = ((-n : Int) : ℚ) := by rw [hz]
  rw [Int.cast_natCast] at h2
  rw [h2]
  push_cast
  rfl

theorem natAbs_cast_of_nonneg (n : Int) (h : ¬ n < 0) : ((n.natAbs : Nat) : ℚ) = (n : ℚ) := by
  have hz : ((n.natAbs : Nat) : Int) = n := by omega
  have h2 : (((n.natAbs : Nat) : Int) : ℚ) = ((n : Int) : ℚ) := by rw [hz]
  rw [Int.cast_natCast] at h2
  exact h2

theorem float64OfInt_exact (n : Int) (h : n.natAbs ≤ 2 ^ 53) : float64OfInt n = .finite n := by
  unfold float64OfInt round64
  by_cases h0 : n = 0
  · simp [h0]
  · have hq : ((n : Int) : ℚ) ≠ 0 := by exact_mod_cast h0
    rw [if_neg hq]
    have hpos : 0 < n.natAbs := Int.natAbs_pos.mpr h0
    simp only [Rat.num_intCast, Rat.den_intCast, roundMagnitude_exact n.natAbs hpos h]
    by_cases hneg : n < 0
    · have hq2 : ((n : Int) : ℚ) < 0 := by exact_mod_cast hneg
      rw [if_pos hq2, natAbs_cast_of_neg n hneg]
      congr 1
      ring
    · have hq2 : ¬ ((n : Int) : ℚ) < 0 := by
        intro hc
        exact hneg (by exact_mod_cast hc)
      rw [if_neg hq2, natAbs_cast_of_nonneg n hneg]

theorem F64.lt_finite_left (x : ℚ) (y : F64) (hy : y ≠ .nan) :
    F64.lt (.finite x) y = !F64.le y (.finite x) := by
  cases y with
  | finite b =>
    simp only [F64.lt, F64.le]
    by_cases h : x < b
    · simp [h, not_le.mpr h]
    · simp [h, not_lt.mp h]
  | nan => exact absurd rfl hy
  | _ => simp [F64.lt, F64.le]

theorem F64.lt_finite_right (x : ℚ) (y : F64) (hy : y ≠ .nan) :
    F64.lt y (.finite x) = !F64.le (.finite x) y := by
  cases y with
  | finite b =>
    simp only [F64.lt, F64.le]
    by_cases h : b < x
    · simp [h, not_le.mpr h]
    · simp [h, not_lt.mp h]
  | nan => exact absurd rfl hy
  | _ => simp [F64.lt, F64.le]

theorem float64OfInt_ne_nan (n : Int) : float64OfInt n ≠ .nan := round64_ne_nan _

theorem checkRating_num (field : Field) (x : ℚ) :
    checkRating field (.num x) =
      if F64.le (float64OfInt (ratingLow field)) (.finite x) = true ∧
          F64.le (.finite x) (float64OfInt (ratingHigh field)) = true then .ok
      else .error (.ratingOutOfRange field.Label) := by
  have h : checkRating field (.num x) =
      if (F64.lt (.finite x) (float64OfInt (ratingLow field)) ||
          F64.lt (float64OfInt (ratingHigh field)) (.finite x)) = true then
        .error (.ratingOutOfRange field.Label)
      else .ok := rfl
  rw [h, F64.lt_finite_left _ _ (float64OfInt_ne_nan _),
    F64.lt_finite_right _ _ (float64OfInt_ne_nan _)]
  cases F64.le (float64OfInt (ratingLow field)) (.finite x) <;>
    cases F64.le (.finite x) (float64OfInt (ratingHigh field)) <;> simp

/-! ## The claims on validation -/

/-- C1: a field hidden for the answers is skipped by `validateSubmission`: the result
is the result for the schema without that field, whatever the answers hold for it. -/
theorem hidden_field_skipped (P S : List Field) (field : Field) (answers : Answers)
    (h : Hidden field answers) :
    validateSubmission ⟨P ++ field :: S⟩ answers = validateSubmission ⟨P ++ S⟩ answers := by
  unfold validateSubmission
  simp only [validateFields_append, validateFields, validateField_hidden h]

/-- C1, at the form `a, b, q2`: `b` is hidden by `a = "no"` and its answer, a number
where a text is declared, changes nothing. -/
theorem hidden_field_skipped_witness :
    Hidden fieldB ⟨[("a", .str "no"), ("b", .num 42)]⟩ ∧
      validateSubmission ⟨[fieldA] ++ fieldB :: [fieldRating]⟩
          ⟨[("a", .str "no"), ("b", .num 42)]⟩ =
        validateSubmission ⟨[fieldA] ++ [fieldRating]⟩
          ⟨[("a", .str "no"), ("b", .num 42)]⟩ :=
  have h : Hidden fieldB ⟨[("a", .str "no"), ("b", .num 42)]⟩ :=
    ⟨⟨"a", .str "yes"⟩, rfl, Or.inr ⟨.str "no", rfl, rfl⟩⟩
  ⟨h, hidden_field_skipped [fieldA] [fieldRating] fieldB _ h⟩

/-- C2 as stated fails: the required field `b` (label `Dietary needs`) is shown, has
no answer and follows no failing field, and the error does not carry its identifier
`b`: it carries its label. -/
theorem missing_required_not_identifier :
    (∀ g ∈ [fieldA], validateField g ⟨[("a", .str "yes")]⟩ = .ok) ∧
      fieldB.Required = true ∧ Shown fieldB ⟨[("a", .str "yes")]⟩ ∧
      GoMap.get? (⟨[("a", .str "yes")]⟩ : Answers) fieldB.ID = none ∧
      validateSubmission ⟨[fieldA] ++ fieldB :: []⟩ ⟨[("a", .str "yes")]⟩ ≠
        .error (.missingRequired fieldB.ID) ∧
      validateSubmission ⟨[fieldA] ++ fieldB :: []⟩ ⟨[("a", .str "yes")]⟩ =
        .error (.missingRequired "Dietary needs") :=
  ⟨by decide, rfl, Or.inr ⟨⟨"a", .str "yes"⟩, .str "yes", rfl, rfl, rfl⟩, rfl,
    by decide, by decide⟩

/-- C2, amended: a required field that is shown, has no entry in the answers and
follows no failing field makes `validateSubmission` fail with the missing-required
error, which carries the label of that field. -/
theorem missing_required_reported (P S : List Field) (field : Field) (answers : Answers)
    (hP : ∀ g ∈ P, validateField g answers = .ok) (hR : field.Required = true)
    (hS : Shown field answers) (hA : answers.get? field.ID = none) :
    validateSubmission ⟨P ++ field :: S⟩ answers = .error (.missingRequired field.Label) ∧
      (ValidationError.missingRequired field.Label).kind = .MissingRequired ∧
      (ValidationError.missingRequired field.Label).message =
        "missing required field: " ++ field.Label := by
  refine ⟨?_, rfl, rfl⟩
  unfold validateSubmission
  rw [validateFields_first field S hP, validateField_shown hS]
  simp [requiredCheck, hR, hA]

/-- C2, amended, at the scenario of the specification: with `a = "no"` the form is
accepted, with `a = "yes"` it is rejected for the missing `b`. -/
theorem missing_required_reported_witness :
    validateSubmission ⟨[fieldA] ++ fieldB :: []⟩ ⟨[("a", .str "no")]⟩ = .ok ∧
      validateSubmission ⟨[fieldA] ++ fieldB :: []⟩ ⟨[("a", .str "yes")]⟩ =
        .error (.missingRequired "Dietary needs") :=
  ⟨by decide,
    (missing_required_reported [fieldA] [] fieldB ⟨[("a", .str "yes")]⟩ (by decide) rfl
      (Or.inr ⟨⟨"a", .str "yes"⟩, .str "yes", rfl, rfl, rfl⟩) rfl).1⟩

/-- C3: `validateSubmission` returns ok exactly when every field is hidden or is shown
and passes its required check and its type check; otherwise its result is the outcome
of the first failing field in schema order, which is also the result for the schema
made of that field alone, whatever follows it; and the result is ok or one error
unless a visibility comparison panics. -/
theorem first_failure_decides (form : Form) (answers : Answers) :
    (validateSubmission form answers = .ok ↔
        ∀ f ∈ form.Fields, Hidden f answers ∨
          (Shown f answers ∧ requiredCheck f answers = .ok ∧ typeCheck f answers = .ok)) ∧
      (validateSubmission form answers ≠ .ok →
        ∃ P f S, form.Fields = P ++ f :: S ∧ (∀ g ∈ P, validateField g answers = .ok) ∧
          validateField f answers ≠ .ok ∧
          validateSubmission form answers = validateField f answers) ∧
      (∀ P f S, form.Fields = P ++ f :: S → (∀ g ∈ P, validateField g answers = .ok) →
        validateField f answers ≠ .ok →
        validateSubmission form answers = validateSubmission ⟨[f]⟩ answers ∧
          validateSubmission ⟨[f]⟩ answers = validateField f answers) ∧
      ((∀ f ∈ form.Fields, visible f answers ≠ none) →
        validateSubmission form answers = .ok ∨
          ∃ e, validateSubmission form answers = .error e) := by
  refine ⟨?_, ?_, ?_, ?_⟩
  · unfold validateSubmission
    rw [validateFields_ok_iff]
    exact forall₂_congr fun f _ => validateField_ok_iff f answers
  · intro h
    exact validateFields_not_ok h
  · intro P f S hF hP hf
    unfold validateSubmission
    rw [hF, validateFields_first f S hP, validateFields_single]
    refine ⟨?_, rfl⟩
    cases hc : validateField f answers <;> simp_all
  · intro hv
    cases hc : validateSubmission form answers with
    | ok => exact Or.inl rfl
    | error e => exact Or.inr ⟨e, rfl⟩
    | panic =>
      exfalso
      have hne : validateSubmission form answers ≠ .ok := by simp [hc]
      obtain ⟨P, f, S, hF, _, _, hr⟩ := validateFields_not_ok hne
      have hp : validateField f answers = .panic := by
        rw [← hr]
        exact hc
      have hmem : f ∈ form.Fields := by
        rw [hF]
        simp
      exact hv f hmem ((validateField_panic_iff f answers).mp hp)

/-- C3, at the form `a, b, q2` with `a = "yes"`, no `b` and the rating 9: the error is
the one of `b`, the first failing field, and not the one of `q2`. -/
theorem first_failure_decides_witness :
    validateSubmission ⟨[fieldA, fieldB, fieldRating]⟩
        ⟨[("a", .str "yes"), ("q2", .num 9)]⟩ =
      validateSubmission ⟨[fieldB]⟩ ⟨[("a", .str "yes"), ("q2", .num 9)]⟩ ∧
    validateSubmission ⟨[fieldB]⟩ ⟨[("a", .str "yes"), ("q2", .num 9)]⟩ =
      .error (.missingRequired "Dietary needs") ∧
    validateSubmission ⟨[fieldRating]⟩ ⟨[("a", .str "yes"), ("q2", .num 9)]⟩ =
      .error (.ratingOutOfRange "Score") :=
  ⟨((first_failure_decides ⟨[fieldA, fieldB, fieldRating]⟩
      ⟨[("a", .str "yes"), ("q2", .num 9)]⟩).2.2.1 [fieldA] fieldB [fieldRating] rfl
      (by decide) (by decide)).1, by decide, by decide!⟩

/-- C4 as stated fails: the shown rating field `w` has `Min = 2 ^ 53 + 1`, which
`float64(min)` rounds to `2 ^ 53`; the answer `2 ^ 53` lies below `Min` and is accepted. -/
theorem rating_below_min_accepted :
    fieldWide.FieldType = "rating" ∧ Shown fieldWide ⟨[("w", .num 9007199254740992)]⟩ ∧
      GoMap.get? (⟨[("w", .num 9007199254740992)]⟩ : Answers) fieldWide.ID =
        some (.num 9007199254740992) ∧
      ¬ ((ratingLow fieldWide : ℚ) ≤ 9007199254740992) ∧
      float64OfInt fieldWide.Min = .finite 9007199254740992 ∧
      validateSubmission ⟨[fieldWide]⟩ ⟨[("w", .num 9007199254740992)]⟩ = .ok := by
  refine ⟨rfl, Or.inl rfl, rfl, ?_, by decide!, by decide!⟩
  simp [ratingLow, fieldWide]
  norm_num

/-- C4, amended: for a shown rating field with an answer, the answer is accepted
exactly when it is a number between `float64(lo)` and `float64(hi)`, both ends
included, where `lo` is `Min`, or 1 when `Min` is zero, and `hi` is `Max`, or 5 when
`Max` is zero; a number outside gives an error of the class `OutOfRange`; the two
conversions are exact when `lo` and `hi` have a magnitude of at most `2 ^ 53`, and then
the range is `[lo, hi]`; with `Min = Max = 0` it is `[1, 5]`. -/
theorem rating_range_float64 (field : Field) (answers : Answers) (v : Value)
    (hT : field.FieldType = "rating") (hS : Shown field answers)
    (hA : answers.get? field.ID = some v) :
    (validateSubmission ⟨[field]⟩ answers = .ok ↔
        ∃ x, v = .num x ∧ F64.le (float64OfInt (ratingLow field)) (.finite x) = true ∧
          F64.le (.finite x) (float64OfInt (ratingHigh field)) = true) ∧
      (∀ x, v = .num x →
        ¬ (F64.le (float64OfInt (ratingLow field)) (.finite x) = true ∧
          F64.le (.finite x) (float64OfInt (ratingHigh field)) = true) →
        ∃ e, validateSubmission ⟨[field]⟩ answers = .error e ∧ e.kind = .OutOfRange) ∧
      ((ratingLow field).natAbs ≤ 2 ^ 53 → (ratingHigh field).natAbs ≤ 2 ^ 53 →
        ∀ x, v = .num x →
          (validateSubmission ⟨[field]⟩ answers = .ok ↔
            (ratingLow field : ℚ) ≤ x ∧ x ≤ (ratingHigh field : ℚ))) ∧
      (field.Min = 0 → field.Max = 0 → ∀ x, v = .num x →
        (validateSubmission ⟨[field]⟩ answers = .ok ↔ 1 ≤ x ∧ x ≤ 5)) := by
  have hr : validateSubmission ⟨[field]⟩ answers = checkRating field v := by
    unfold validateSubmission
    rw [validateFields_single, validateField_answered hS hA]
    simp [checkType, hT]
  have hnum : ∀ x, v = .num x →
      (validateSubmission ⟨[field]⟩ answers = .ok ↔
        F64.le (float64OfInt (ratingLow field)) (.finite x) = true ∧
          F64.le (.finite x) (float64OfInt (ratingHigh field)) = true) := by
    intro x hx
    rw [hr, hx, checkRating_num]
    by_cases hc : F64.le (float64OfInt (ratingLow field)) (.finite x) = true ∧
        F64.le (.finite x) (float64OfInt (ratingHigh field)) = true
    · simp [hc]
    · rw [if_neg hc]
      simp [hc]
  have hexact : (ratingLow field).natAbs ≤ 2 ^ 53 → (ratingHigh field).natAbs ≤ 2 ^ 53 →
      ∀ x, v = .num x →
        (validateSubmission ⟨[field]⟩ answers = .ok ↔
          (ratingLow field : ℚ) ≤ x ∧ x ≤ (ratingHigh field : ℚ)) := by
    intro hlo hhi x hx
    rw [hnum x hx, float64OfInt_exact _ hlo, float64OfInt_exact _ hhi]
    simp [F64.le]
  refine ⟨?_, ?_, hexact, ?_⟩
  · constructor
    · intro hok
      cases v with
      | num x => exact ⟨x, rfl, (hnum x rfl).mp hok⟩
      | _ => simp [hr, checkRating] at hok
    · rintro ⟨x, hx, hb⟩
      exact (hnum x hx).mpr hb
  · intro x hx hb
    refine ⟨.ratingOutOfRange field.Label, ?_, rfl⟩
    rw [hr, hx, checkRating_num, if_neg hb]
  · intro h0 h5 x hx
    have hlo : ratingLow field = 1 := by simp [ratingLow, h0]
    have hhi : ratingHigh field = 5 := by simp [ratingHigh, h5]
    have h := hexact (by rw [hlo]; decide) (by rw [hhi]; decide) x hx
    rw [hlo, hhi] at h
    simpa using h

/-- C4, amended, at the rating field with no declared range: 1, 3 and 5 are accepted,
0 and 6 are rejected as out of range. -/
theorem rating_range_float64_witness :
    validateSubmission ⟨[fieldRating]⟩ ⟨[("q2", .num 3)]⟩ = .ok ∧
      validateSubmission ⟨[fieldRating]⟩ ⟨[("q2", .num 1)]⟩ = .ok ∧
      validateSubmission ⟨[fieldRating]⟩ ⟨[("q2", .num 5)]⟩ = .ok ∧
      validateSubmission ⟨[fieldRating]⟩ ⟨[("q2", .num 0)]⟩ ≠ .ok ∧
      validateSubmission ⟨[fieldRating]⟩ ⟨[("q2", .num 6)]⟩ ≠ .ok ∧
      ∃ e, validateSubmission ⟨[fieldRating]⟩ ⟨[("q2", .num 6)]⟩ = .error e ∧
        e.kind = .OutOfRange :=
  ⟨((rating_range_float64 fieldRating ⟨[("q2", .num 3)]⟩ (.num 3) rfl (Or.inl rfl) rfl).2.2.2
      rfl rfl 3 rfl).mpr (by norm_num),
    by decide!, by decide!, by decide!, by decide!,
    (rating_range_float64 fieldRating ⟨[("q2", .num 6)]⟩ (.num 6) rfl (Or.inl rfl) rfl).2.1
      6 rfl (by decide!)⟩

/-- C5: for a shown multi-select field with an answer, the answer is accepted exactly
when it is a list whose elements are all strings of the option list; a list with an
element that is not a string, or is a string outside the option list, is rejected
whole, with an error of the class `ValueNotAllowed`. -/
theorem multi_select_all_or_nothing (field : Field) (answers : Answers) (v : Value)
    (hT : field.FieldType = "multi_select") (hS : Shown field answers)
    (hA : answers.get? field.ID = some v) :
    (validateSubmission ⟨[field]⟩ answers = .ok ↔
        ∃ items, v = .list items ∧ ∀ it ∈ items, ∃ s, it = .str s ∧ s ∈ field.Options) ∧
      (∀ items, v = .list items →
        (∃ it ∈ items, (¬ ∃ s, it = .str s) ∨ ∃ s, it = .str s ∧ s ∉ field.Options) →
        ∃ e, validateSubmission ⟨[field]⟩ answers = .error e ∧
          e.kind = .ValueNotAllowed) := by
  have hr : validateSubmission ⟨[field]⟩ answers = checkMultiSelect field v := by
    unfold validateSubmission
    rw [validateFields_single, validateField_answered hS hA]
    simp [checkType, hT]
  refine ⟨?_, ?_⟩
  · rw [hr]
    constructor
    · intro hok
      cases v with
      | list items => exact ⟨items, rfl, (checkSelections_ok_iff field items).mp hok⟩
      | _ => simp [checkMultiSelect] at hok
    · rintro ⟨items, rfl, hall⟩
      exact (checkSelections_ok_iff field items).mpr hall
  · rintro items rfl ⟨it, hit, hbad⟩
    rw [hr]
    simp only [checkMultiSelect]
    rcases checkSelections_kind field items with hok | he
    · exfalso
      obtain ⟨s, hs, hmem⟩ := (checkSelections_ok_iff field items).mp hok it hit
      rcases hbad with hbad | ⟨s2, hs2, hn⟩
      · exact hbad ⟨s, hs⟩
      · rw [hs] at hs2
        cases hs2
        exact hn hmem
    · exact he

/-- C5, at the toppings field: two listed values are accepted, and one unlisted value
among two listed ones rejects the whole answer. -/
theorem multi_select_all_or_nothing_witness :
    validateSubmission ⟨[fieldToppings]⟩ ⟨[("t", .list [.str "ham", .str "basil"])]⟩ = .ok ∧
      ∃ e, validateSubmission ⟨[fieldToppings]⟩
          ⟨[("t", .list [.str "ham", .str "tuna", .str "basil"])]⟩ = .error e ∧
        e.kind = .ValueNotAllowed :=
  ⟨by decide,
    (multi_select_all_or_nothing fieldToppings
      ⟨[("t", .list [.str "ham", .str "tuna", .str "basil"])]⟩
      (.list [.str "ham", .str "tuna", .str "basil"]) rfl (Or.inl rfl) rfl).2 _ rfl
      ⟨.str "tuna", by simp, Or.inr ⟨"tuna", rfl, by decide⟩⟩⟩

/-- C6 as stated fails: the empty string is an entry of the option list of the shown
single-choice field `s`, and the answer `""` is rejected. -/
theorem single_choice_empty_option_rejected :
    fieldSize.FieldType = "single_choice" ∧ Shown fieldSize ⟨[("s", .str "")]⟩ ∧
      GoMap.get? (⟨[("s", .str "")]⟩ : Answers) fieldSize.ID = some (.str "") ∧
      "" ∈ fieldSize.Options ∧
      validateSubmission ⟨[fieldSize]⟩ ⟨[("s", .str "")]⟩ = .error (.invalidChoice "Size") :=
  ⟨rfl, Or.inl rfl, rfl, by decide, by decide⟩

/-- C6, amended: for a shown single-choice field with an answer, the answer is
accepted exactly when it is a non-empty string equal to an entry of the option list;
every other answer is rejected with an error of the class `ValueNotAllowed`. -/
theorem single_choice_nonempty_option (field : Field) (answers : Answers) (v : Value)
    (hT : field.FieldType = "single_choice") (hS : Shown field answers)
    (hA : answers.get? field.ID = some v) :
    (validateSubmission ⟨[field]⟩ answers = .ok ↔
        ∃ s, v = .str s ∧ s ≠ "" ∧ s ∈ field.Options) ∧
      ((¬ ∃ s, v = .str s ∧ s ≠ "" ∧ s ∈ field.Options) →
        ∃ e, validateSubmission ⟨[field]⟩ answers = .error e ∧
          e.kind = .ValueNotAllowed) := by
  have hr : validateSubmission ⟨[field]⟩ answers = checkSingleChoice field v := by
    unfold validateSubmission
    rw [validateFields_single, validateField_answered hS hA]
    simp [checkType, hT]
  rw [hr]
  cases v with
  | str s =>
    simp only [checkSingleChoice]
    by_cases he : s = ""
    · simp [he, ValidationError.kind]
    · by_cases ha : allowedOption field.Options s = true
      · have hm := (allowedOption_iff _ _).mp ha
        simp [he, ha, hm]
      · have hm : s ∉ field.Options := fun hm => ha ((allowedOption_iff _ _).mpr hm)
        simp [he, ha, hm, ValidationError.kind]
  | _ => simp [checkSingleChoice, ValidationError.kind]

/-- C6, amended, at the size field: `large` is accepted, `small` is rejected. -/
theorem single_choice_nonempty_option_witness :
    validateSubmission ⟨[fieldSize]⟩ ⟨[("s", .str "large")]⟩ = .ok ∧
      validateSubmission ⟨[fieldSize]⟩ ⟨[("s", .str "small")]⟩ =
        .error (.choiceNotInOptions "Size") :=
  ⟨(single_choice_nonempty_option fieldSize ⟨[("s", .str "large")]⟩ (.str "large") rfl
      (Or.inl rfl) rfl).1.mpr ⟨"large", rfl, by decide, by decide⟩,
    by decide⟩

/-! ## Lemmas on Go maps -/

namespace GoMap

variable {κ α : Type} [DecidableEq κ]

theorem get?_empty (k : κ) : (GoMap.empty : GoMap κ α).get? k = none := rfl

theorem get?_set_self (m : GoMap κ α) (k : κ) (v : α) : (m.set k v).get? k = some v := by
  simp [get?, set]

theorem find?_filter_ne (l : List (κ × α)) {k j : κ} (h : j ≠ k) :
    (l.filter (fun p => decide (p.1 ≠ k))).find? (fun p => decide (p.1 = j)) =
      l.find? (fun p => decide (p.1 = j)) := by
  induction l with
  | nil => rfl
  | cons p l ih =>
    by_cases hp : p.1 = k
    · have hj : ¬ p.1 = j := fun e => h (e.symm.trans hp)
      have h1 : decide (p.1 ≠ k) = false := decide_eq_false (not_not.mpr hp)
      have h2 : decide (p.1 = j) = false := decide_eq_false hj
      rw [List.filter_cons_of_neg (by simp [h1]), ih, List.find?_cons_of_neg _ (by simp [h2])]
    · have h1 : decide (p.1 ≠ k) = true := decide_eq_true hp
      rw [List.filter_cons_of_pos (by exact h1)]
      by_cases hj : p.1 = j
      · have h2 : decide (p.1 = j) = true := decide_eq_true hj
        rw [List.find?_cons_of_pos _ (by exact h2), List.find?_cons_of_pos _ (by exact h2)]
      · have h2 : decide (p.1 = j) = false := decide_eq_false hj
        rw [List.find?_cons_of_neg _ (by simp [h2]), List.find?_cons_of_neg _ (by simp [h2]), ih]

theorem get?_set_ne (m : GoMap κ α) {k j : κ} (v : α) (h : j ≠ k) :
    (m.set k v).get? j = m.get? j := by
  have hk : ¬ k = j := fun e => h e.symm
  simp only [get?, set, List.find?_cons, hk, decide_False]
  rw [find?_filter_ne m.entries h]

theorem getD_set_self (m : GoMap κ α) (k : κ) (v d : α) : (m.set k v).getD k d = v := by
  simp [getD, get?_set_self]

theorem getD_set_ne (m : GoMap κ α) {k j : κ} (v d : α) (h : j ≠ k) :
    (m.set k v).getD j d = m.getD j d := by
  simp [getD, get?_set_ne m v h]

theorem getD_incr_self (m : GoMap κ Nat) (k : κ) : (m.incr k).getD k 0 = m.getD k 0 + 1 := by
  simp [incr, getD_set_self]

theorem getD_incr_ne (m : GoMap κ Nat) {k j : κ} (h : j ≠ k) :
    (m.incr k).getD j 0 = m.getD j 0 := by
  simp [incr, getD_set_ne m _ _ h]

theorem getD_incr (m : GoMap κ Nat) (k j : κ) :
    (m.incr k).getD j 0 = m.getD j 0 + if k = j then 1 else 0 := by
  by_cases h : k = j
  · subst h
    simp [getD_incr_self]
  · have hj : j ≠ k := fun e => h e.symm
    simp [getD_incr_ne m hj, h]

theorem mem_keys_set {m : GoMap κ α} {k j : κ} {v : α} (h : j ∈ (m.set k v).keys) :
    j = k ∨ j ∈ m.keys := by
  simp only [keys, set, List.map_cons, List.mem_cons, List.mem_map, List.mem_filter] at h ⊢
  rcases h with h | ⟨p, ⟨hp, _⟩, rfl⟩
  · exact Or.inl h
  · exact Or.inr ⟨p, hp, rfl⟩

end GoMap

/-! ## More lemmas on Go maps -/

namespace GoMap

variable {κ α : Type} [DecidableEq κ]

theorem keys_set (m : GoMap κ α) (k : κ) (v : α) :
    (m.set k v).keys = k :: m.keys.filter (fun j => decide (j ≠ k)) := by
  simp only [keys, set, List.map_cons, List.cons.injEq, true_and]
  rw [List.filter_map]
  rfl

theorem mem_keys_set_iff (m : GoMap κ α) (k j : κ) (v : α) :
    j ∈ (m.set k v).keys ↔ j = k ∨ j ∈ m.keys := by
  rw [keys_set]
  by_cases h : j = k
  · simp [h]
  · simp [h, List.mem_filter]

theorem nodup_keys_set {m : GoMap κ α} (k : κ) (v : α) (h : m.keys.Nodup) :
    (m.set k v).keys.Nodup := by
  rw [keys_set, List.nodup_cons]
  refine ⟨?_, h.filter _⟩
  simp [List.mem_filter]

theorem keys_erase (m : GoMap κ α) (k : κ) :
    (m.erase k).keys = m.keys.filter (fun j => decide (j ≠ k)) := by
  simp only [keys, erase]
  rw [List.filter_map]
  rfl

theorem mem_keys_erase_iff (m : GoMap κ α) (k j : κ) :
    j ∈ (m.erase k).keys ↔ j ≠ k ∧ j ∈ m.keys := by
  rw [keys_erase]
  simp [List.mem_filter, and_comm]

theorem nodup_keys_erase {m : GoMap κ α} (k : κ) (h : m.keys.Nodup) :
    (m.erase k).keys.Nodup := by
  rw [keys_erase]
  exact h.filter _

theorem find?_of_mem_nodup (l : List (κ × α)) {k : κ} {v : α}
    (hnd : (l.map Prod.fst).Nodup) (h : (k, v) ∈ l) :
    (l.find? (fun p => decide (p.1 = k))).map Prod.snd = some v := by
  induction l with
  | nil => simp at h
  | cons p l ih =>
    rw [List.map_cons, List.nodup_cons] at hnd
    rcases List.mem_cons.mp h with rfl | hmem
    · simp
    · have hne : ¬ p.1 = k := by
        intro e
        exact hnd.1 (e ▸ List.mem_map_of_mem Prod.fst hmem)
      rw [List.find?_cons_of_neg _ (by simpa using hne)]
      exact ih hnd.2 hmem

theorem get?_of_mem {m : GoMap κ α} {k : κ} {v : α} (hnd : m.keys.Nodup)
    (h : (k, v) ∈ m.entries) : m.get? k = some v :=
  find?_of_mem_nodup m.entries hnd h

end GoMap

/-! ## Lemmas on the scan of the responses -/

theorem countSelections_getD (b : GoMap String Nat) (items : List Value) (label : String) :
    (countSelections b items).getD label 0 =
      b.getD label 0 + items.countP (isString label) := by
  induction items generalizing b with
  | nil => simp [countSelections]
  | cons it rest ih =>
    cases it with
    | str s =>
      simp only [countSelections, ih, GoMap.getD_incr, List.countP_cons, isString]
      by_cases h : s = label
      · simp [h]
        omega
      · simp [h]
    | _ => simp [countSelections, ih, isString, List.countP_cons]

theorem Scan.bucketAt_eq (st : Scan) (id label : String) :
    st.bucketAt id label =
      (st.FieldBreakdown.getD id ⟨GoMap.empty⟩).Buckets.getD label 0 := by
  unfold Scan.bucketAt GoMap.getD
  cases st.FieldBreakdown.get? id <;> simp [GoMap.get?_empty]

theorem Scan.bucketAt_set (st st2 : Scan) (id j label : String) (d : Distribution)
    (h : st2.FieldBreakdown = st.FieldBreakdown.set id d) :
    st2.bucketAt j label =
      if id = j then d.Buckets.getD label 0 else st.bucketAt j label := by
  unfold Scan.bucketAt
  rw [h]
  by_cases hj : id = j
  · subst hj
    simp [GoMap.get?_set_self]
  · have hne : j ≠ id := fun e => hj e.symm
    simp [GoMap.get?_set_ne _ _ hne, hj]

theorem classify_FieldBreakdown (st : Scan) (g : Field) (val : Value) :
    (classify st g val).FieldBreakdown =
      st.FieldBreakdown.set g.ID
        ⟨bucketsAfter (st.FieldBreakdown.getD g.ID ⟨GoMap.empty⟩).Buckets val⟩ := by
  cases val with
  | str v =>
    by_cases hv : v = ""
    · simp [classify, bucketsAfter, hv]
    · simp [classify, bucketsAfter, hv]
  | list items =>
    cases items with
    | nil => simp [classify, bucketsAfter]
    | cons it rest => simp [classify, bucketsAfter]
  | _ => simp [classify, bucketsAfter]

theorem bucketsAfter_getD (b : GoMap String Nat) (val : Value) (label : String)
    (hn : val ≠ .null) :
    (bucketsAfter b val).getD label 0 = b.getD label 0 + scanShare label (some val) := by
  cases val with
  | null => exact absurd rfl hn
  | str v =>
    by_cases hv : v = ""
    · simp [bucketsAfter, hv, scanShare, statedShare, isNull]
    · simp [bucketsAfter, hv, scanShare, statedShare, isNull, GoMap.getD_incr]
  | num x => simp [bucketsAfter, scanShare, statedShare, isNull, GoMap.getD_incr, eq_comm]
  | bool v => simp [bucketsAfter, scanShare, statedShare, isNull, GoMap.getD_incr, eq_comm]
  | list items =>
    cases items with
    | nil => simp [bucketsAfter, scanShare, statedShare, isNull]
    | cons it rest =>
      simp [bucketsAfter, scanShare, statedShare, isNull, countSelections_getD]
  | obj entries =>
    simp [bucketsAfter, scanShare, statedShare, isNull, GoMap.getD_incr, eq_comm]
  | arr items =>
    simp [bucketsAfter, scanShare, statedShare, isNull, GoMap.getD_incr, eq_comm]

theorem classify_bucketAt (st : Scan) (g : Field) (val : Value) (j label : String)
    (hn : val ≠ .null) :
    (classify st g val).bucketAt j label =
      st.bucketAt j label + if g.ID = j then scanShare label (some val) else 0 := by
  rw [Scan.bucketAt_set st _ g.ID j label _ (classify_FieldBreakdown st g val)]
  by_cases hj : g.ID = j
  · subst hj
    simp only [if_true]
    rw [bucketsAfter_getD _ _ _ hn, st.bucketAt_eq]
  · simp [hj]

theorem classify_skipsAt (st : Scan) (g : Field) (val : Value) (j : String)
    (hn : val ≠ .null) :
    (classify st g val).skipsAt j =
      st.skipsAt j + if g.ID = j then (if scanSkip (some val) then 1 else 0) else 0 := by
  unfold Scan.skipsAt
  cases val with
  | null => exact absurd rfl hn
  | str v =>
    by_cases hv : v = ""
    · simp [classify, hv, scanSkip, statedSkip, isNull, GoMap.getD_incr]
    · simp [classify, hv, scanSkip, statedSkip, isNull]
  | num x => simp [classify, scanSkip, statedSkip, isNull]
  | bool b => simp [classify, scanSkip, statedSkip, isNull]
  | list items =>
    cases items with
    | nil => simp [classify, scanSkip, statedSkip, isNull, GoMap.getD_incr]
    | cons it rest => simp [classify, scanSkip, statedSkip, isNull]
  | obj entries => simp [classify, scanSkip, statedSkip, isNull]
  | arr items => simp [classify, scanSkip, statedSkip, isNull]

theorem analyzeField_bucketAt (r : Response) (st : Scan) (g : Field) (j label : String) :
    (analyzeField r st g).bucketAt j label =
      st.bucketAt j label +
        (if (!g.IsPII && decide (g.ID = j)) = true then 1 else 0) *
          scanShare label (r.Answers.get? j) := by
  unfold analyzeField
  by_cases hp : g.IsPII = true
  · simp [hp]
  · simp only [hp, Bool.false_eq_true, if_false]
    have hp2 : g.IsPII = false := by simpa using hp
    by_cases hj : g.ID = j
    · subst hj
      simp only [hp2, Bool.not_false, Bool.true_and, decide_True, if_true, Nat.one_mul]
      cases hg : r.Answers.get? g.ID with
      | none => simp [Scan.bucketAt, scanShare, statedShare, isNull]
      | some val =>
        cases val with
        | null => simp [Scan.bucketAt, scanShare, statedShare, isNull]
        | _ =>
          simp only []
          rw [classify_bucketAt _ _ _ _ _ (by simp)]
          simp [Scan.bucketAt]
    · simp only [hj, decide_False, Bool.and_false, Bool.false_eq_true, if_false,
        Nat.zero_mul, Nat.add_zero]
      cases hg : r.Answers.get? g.ID with
      | none => simp [Scan.bucketAt]
      | some val =>
        cases val with
        | null => simp [Scan.bucketAt]
        | _ =>
          simp only []
          rw [classify_bucketAt _ _ _ _ _ (by simp)]
          simp [Scan.bucketAt, hj]

theorem analyzeField_skipsAt (r : Response) (st : Scan) (g : Field) (j : String) :
    (analyzeField r st g).skipsAt j =
      st.skipsAt j +
        (if (!g.IsPII && decide (g.ID = j)) = true then 1 else 0) *
          (if scanSkip (r.Answers.get? j) = true then 1 else 0) := by
  unfold analyzeField
  by_cases hp : g.IsPII = true
  · simp [hp]
  · simp only [hp, Bool.false_eq_true, if_false]
    have hp2 : g.IsPII = false := by simpa using hp
    by_cases hj : g.ID = j
    · subst hj
      simp only [hp2, Bool.not_false, Bool.true_and, decide_True, if_true, Nat.one_mul]
      cases hg : r.Answers.get? g.ID with
      | none => simp [Scan.skipsAt, scanSkip, statedSkip, GoMap.getD_incr]
      | some val =>
        cases val with
        | null => simp [Scan.skipsAt, scanSkip, statedSkip, isNull, GoMap.getD_incr]
        | _ =>
          simp only []
          rw [classify_skipsAt _ _ _ _ (by simp)]
          simp [Scan.skipsAt]
    · simp only [hj, decide_False, Bool.and_false, Bool.false_eq_true, if_false,
        Nat.zero_mul, Nat.add_zero]
      cases hg : r.Answers.get? g.ID with
      | none => simp [Scan.skipsAt, GoMap.getD_incr, hj]
      | some val =>
        cases val with
        | null => simp [Scan.skipsAt, GoMap.getD_incr, hj]
        | _ =>
          simp only []
          rw [classify_skipsAt _ _ _ _ (by simp)]
          simp [Scan.skipsAt, hj]

theorem classify_count (st : Scan) (g : Field) (val : Value) :
    (classify st g val).count = st.count := by
  cases val with
  | str v => by_cases hv : v = "" <;> simp [classify, hv]
  | list items => cases items <;> simp [classify]
  | _ => simp [classify]

theorem analyzeField_count (r : Response) (st : Scan) (g : Field) :
    (analyzeField r st g).count = st.count := by
  unfold analyzeField
  by_cases hp : g.IsPII = true
  · simp [hp]
  · simp only [hp, Bool.false_eq_true, if_false]
    cases hg : r.Answers.get? g.ID with
    | none => rfl
    | some val =>
      cases val with
      | null => rfl
      | _ => simp only [classify_count]

theorem foldl_analyzeField_bucketAt (r : Response) (fields : List Field) (st : Scan)
    (j label : String) :
    (fields.foldl (analyzeField r) st).bucketAt j label =
      st.bucketAt j label + analyzed fields j * scanShare label (r.Answers.get? j) := by
  induction fields generalizing st with
  | nil => simp [analyzed]
  | cons g rest ih =>
    rw [List.foldl_cons, ih, analyzeField_bucketAt]
    unfold analyzed
    rw [List.countP_cons]
    ring

theorem foldl_analyzeField_skipsAt (r : Response) (fields : List Field) (st : Scan)
    (j : String) :
    (fields.foldl (analyzeField r) st).skipsAt j =
      st.skipsAt j +
        analyzed fields j * (if scanSkip (r.Answers.get? j) = true then 1 else 0) := by
  induction fields generalizing st with
  | nil => simp [analyzed]
  | cons g rest ih =>
    rw [List.foldl_cons, ih, analyzeField_skipsAt]
    unfold analyzed
    rw [List.countP_cons]
    ring

theorem foldl_analyzeField_count (r : Response) (fields : List Field) (st : Scan) :
    (fields.foldl (analyzeField r) st).count = st.count := by
  induction fields generalizing st with
  | nil => rfl
  | cons g rest ih => rw [List.foldl_cons, ih, analyzeField_count]

theorem foldl_analyzeResponse_bucketAt (form : Form) (rs : List Response) (st : Scan)
    (j label : String) :
    (rs.foldl (analyzeResponse form) st).bucketAt j label =
      st.bucketAt j label +
        analyzed form.Fields j * (rs.map (fun r => scanShare label (r.Answers.get? j))).sum := by
  induction rs generalizing st with
  | nil => simp
  | cons r rest ih =>
    rw [List.foldl_cons, ih]
    unfold analyzeResponse
    rw [foldl_analyzeField_bucketAt]
    simp only [Scan.bucketAt, List.map_cons, List.sum_cons]
    ring

theorem foldl_analyzeResponse_skipsAt (form : Form) (rs : List Response) (st : Scan)
    (j : String) :
    (rs.foldl (analyzeResponse form) st).skipsAt j =
      st.skipsAt j +
        analyzed form.Fields j * rs.countP (fun r => scanSkip (r.Answers.get? j)) := by
  induction rs generalizing st with
  | nil => simp
  | cons r rest ih =>
    rw [List.foldl_cons, ih]
    unfold analyzeResponse
    rw [foldl_analyzeField_skipsAt, List.countP_cons]
    simp only [Scan.skipsAt]
    ring

theorem foldl_analyzeResponse_count (form : Form) (rs : List Response) (st : Scan) :
    (rs.foldl (analyzeResponse form) st).count = st.count + rs.length := by
  induction rs generalizing st with
  | nil => simp
  | cons r rest ih =>
    rw [List.foldl_cons, ih]
    unfold analyzeResponse
    rw [foldl_analyzeField_count]
    simp only [List.length_cons]
    omega

theorem scanResponses_count (form : Form) (rs : List Response) :
    (scanResponses form rs).count = rs.length := by
  unfold scanResponses
  rw [foldl_analyzeResponse_count]
  simp [Scan.init]

theorem analyzed_eq_zero {fields : List Field} {id : String}
    (h : ∀ g ∈ fields, g.ID = id → g.IsPII = true) : analyzed fields id = 0 := by
  unfold analyzed
  rw [List.countP_eq_zero]
  intro g hg
  by_cases hid : g.ID = id
  · simp [h g hg hid]
  · simp [hid]

theorem analyzed_eq_one {fields : List Field} {f : Field}
    (hnd : (fields.map Field.ID).Nodup) (hf : f ∈ fields) (hp : f.IsPII = false) :
    analyzed fields f.ID = 1 := by
  induction fields with
  | nil => simp at hf
  | cons g rest ih =>
    rw [List.map_cons, List.nodup_cons] at hnd
    unfold analyzed
    rw [List.countP_cons]
    rcases List.mem_cons.mp hf with rfl | hmem
    · have hz : analyzed rest f.ID = 0 := by
        apply analyzed_eq_zero
        intro g hg hid
        exact absurd (hid ▸ List.mem_map_of_mem Field.ID hg) hnd.1
      unfold analyzed at hz
      simp [hz, hp]
    · have hne : g.ID ≠ f.ID := by
        intro hid
        exact hnd.1 (hid ▸ List.mem_map_of_mem Field.ID hmem)
      have h1 := ih hnd.2 hmem
      unfold analyzed at h1
      simp [h1, hne]

/-! ## Lemmas on the keys of the report -/

theorem classify_keys (st : Scan) (g : Field) (val : Value) (k : String)
    (h : k ∈ (classify st g val).FieldBreakdown.keys ∨ k ∈ (classify st g val).sums.keys) :
    k = g.ID ∨ k ∈ st.FieldBreakdown.keys ∨ k ∈ st.sums.keys := by
  rcases h with h | h
  · rw [classify_FieldBreakdown] at h
    rcases GoMap.mem_keys_set h with h | h
    · exact Or.inl h
    · exact Or.inr (Or.inl h)
  · cases val with
    | num x =>
      have h2 : k ∈ (st.sums.set g.ID
          (F64.add (st.sums.getD g.ID (.finite 0)) (.finite x))).keys := h
      rcases GoMap.mem_keys_set h2 with h2 | h2
      · exact Or.inl h2
      · exact Or.inr (Or.inr h2)
    | str v =>
      by_cases hv : v = ""
      · simp [classify, hv] at h
        exact Or.inr (Or.inr h)
      · simp [classify, hv] at h
        exact Or.inr (Or.inr h)
    | list items =>
      cases items with
      | nil =>
        simp [classify] at h
        exact Or.inr (Or.inr h)
      | cons it rest =>
        simp [classify] at h
        exact Or.inr (Or.inr h)
    | _ => exact Or.inr (Or.inr h)

theorem analyzeField_keys (r : Response) (st : Scan) (g : Field) (k : String)
    (h : k ∈ (analyzeField r st g).FieldBreakdown.keys ∨
      k ∈ (analyzeField r st g).sums.keys) :
    (g.IsPII = false ∧ g.ID = k) ∨ k ∈ st.FieldBreakdown.keys ∨ k ∈ st.sums.keys := by
  unfold analyzeField at h
  by_cases hp : g.IsPII = true
  · simp only [hp, if_true] at h
    exact Or.inr h
  · simp only [hp, Bool.false_eq_true, if_false] at h
    have hp2 : g.IsPII = false := by simpa using hp
    cases hg : r.Answers.get? g.ID with
    | none =>
      rw [hg] at h
      exact Or.inr h
    | some val =>
      rw [hg] at h
      cases val with
      | null => exact Or.inr h
      | _ =>
        simp only [] at h
        rcases classify_keys _ _ _ _ h with h | h
        · exact Or.inl ⟨hp2, h.symm⟩
        · exact Or.inr h

theorem foldl_analyzeField_keys (r : Response) (fields : List Field) (st : Scan)
    (k : String)
    (h : k ∈ (fields.foldl (analyzeField r) st).FieldBreakdown.keys ∨
      k ∈ (fields.foldl (analyzeField r) st).sums.keys) :
    Analyzable fields k ∨ k ∈ st.FieldBreakdown.keys ∨ k ∈ st.sums.keys := by
  induction fields generalizing st with
  | nil => exact Or.inr h
  | cons g rest ih =>
    rw [List.foldl_cons] at h
    rcases ih _ h with ⟨x, hx, hpx⟩ | h
    · exact Or.inl ⟨x, List.mem_cons_of_mem _ hx, hpx⟩
    · rcases analyzeField_keys _ _ _ _ h with hg | h
      · exact Or.inl ⟨g, List.mem_cons_self _ _, hg⟩
      · exact Or.inr h

theorem foldl_analyzeResponse_keys (form : Form) (rs : List Response) (st : Scan)
    (k : String)
    (h : k ∈ (rs.foldl (analyzeResponse form) st).FieldBreakdown.keys ∨
      k ∈ (rs.foldl (analyzeResponse form) st).sums.keys) :
    Analyzable form.Fields k ∨ k ∈ st.FieldBreakdown.keys ∨ k ∈ st.sums.keys := by
  induction rs generalizing st with
  | nil => exact Or.inr h
  | cons r rest ih =>
    rw [List.foldl_cons] at h
    rcases ih _ h with h | h
    · exact Or.inl h
    · unfold analyzeResponse at h
      rcases foldl_analyzeField_keys _ _ _ _ h with h | h
      · exact Or.inl h
      · exact Or.inr h

theorem scanResponses_keys (form : Form) (rs : List Response) (k : String)
    (h : k ∈ (scanResponses form rs).FieldBreakdown.keys ∨
      k ∈ (scanResponses form rs).sums.keys) :
    Analyzable form.Fields k := by
  rcases foldl_analyzeResponse_keys form (rs.map decodeResponse) Scan.init k h with h | h | h
  · exact h
  · simp [Scan.init, GoMap.keys, GoMap.empty] at h
  · simp [Scan.init, GoMap.keys, GoMap.empty] at h

theorem averageRating_keys (sums : GoMap String F64) (counts : GoMap String Nat)
    (k : String) (h : k ∈ (averageRating sums counts).keys) : k ∈ sums.keys := by
  unfold averageRating at h
  have key : ∀ (l : List String) (acc : GoMap String F64),
      k ∈ (l.foldl
        (fun avg k =>
          if counts.getD k 0 > 0 then
            avg.set k (F64.div (sums.getD k (.finite 0)) (float64OfInt (counts.getD k 0)))
          else avg) acc).keys → k ∈ l ∨ k ∈ acc.keys := by
    intro l
    induction l with
    | nil => intro acc h; exact Or.inr h
    | cons x rest ih =>
      intro acc h
      rw [List.foldl_cons] at h
      rcases ih _ h with h | h
      · exact Or.inl (List.mem_cons_of_mem _ h)
      · split_ifs at h
        · rcases GoMap.mem_keys_set h with h | h
          · exact Or.inl (h ▸ List.mem_cons_self _ _)
          · exact Or.inr h
        · exact Or.inr h
  rcases key _ _ h with h | h
  · exact h
  · simp [GoMap.keys, GoMap.empty] at h

theorem mostCommonAnswers_keys (rangeOrder : String → List (String × Nat) → List (String × Nat))
    (breakdown : GoMap String Distribution) (k : String)
    (h : k ∈ (mostCommonAnswers rangeOrder breakdown).keys) : k ∈ breakdown.keys := by
  unfold mostCommonAnswers at h
  have key : ∀ (l : List (String × Distribution)) (acc : GoMap String String),
      k ∈ (l.foldl
        (fun out p =>
          let best := (mostCommon (rangeOrder p.1 p.2.Buckets.entries)).2
          if best ≠ "" then out.set p.1 best else out) acc).keys →
        k ∈ l.map Prod.fst ∨ k ∈ acc.keys := by
    intro l
    induction l with
    | nil => intro acc h; exact Or.inr h
    | cons x rest ih =>
      intro acc h
      rw [List.foldl_cons] at h
      rcases ih _ h with h | h
      · exact Or.inl (List.mem_cons_of_mem _ h)
      · simp only at h
        split_ifs at h
        · rcases GoMap.mem_keys_set h with h | h
          · exact Or.inl (h ▸ List.mem_cons_self _ _)
          · exact Or.inr h
        · exact Or.inr h
  rcases key _ _ h with h | h
  · exact h
  · simp [GoMap.keys, GoMap.empty] at h

theorem skippedFields_mem {fields : List Field} {fieldSkips : GoMap String Nat}
    {count : Nat} {s : SkippedField} (h : s ∈ skippedFields fields fieldSkips count) :
    ∃ g ∈ fields, g.IsPII = false ∧ s.FieldID = g.ID ∧ s.FieldName = g.Label ∧
      s.SkipCount = fieldSkips.getD g.ID 0 := by
  unfold skippedFields at h
  rw [List.mem_map] at h
  obtain ⟨g, hg, rfl⟩ := h
  rw [List.mem_filter] at hg
  exact ⟨g, hg.1, by simpa using hg.2, rfl, rfl, rfl⟩

theorem skippedFields_has {fields : List Field} (fieldSkips : GoMap String Nat)
    (count : Nat) {f : Field} (hf : f ∈ fields) (hp : f.IsPII = false) :
    ∃ s ∈ skippedFields fields fieldSkips count, s.FieldID = f.ID ∧ s.FieldName = f.Label := by
  unfold skippedFields
  exact ⟨_, List.mem_map_of_mem _ (List.mem_filter.mpr ⟨hf, by simp [hp]⟩), rfl, rfl⟩

theorem not_analyzable_of_pii {fields : List Field} {f : Field}
    (hnd : (fields.map Field.ID).Nodup) (hf : f ∈ fields) (hp : f.IsPII = true) :
    ¬ Analyzable fields f.ID := by
  rintro ⟨g, hg, hgp, hid⟩
  have hgf : g = f := List.inj_on_of_nodup_map hnd hg hf hid
  rw [hgf, hp] at hgp
  exact Bool.noConfusion hgp

/-! ## Lemmas on the decoding of the cursor -/

theorem find?_map_decode (l : List (String × Value)) (k : String) :
    ((l.map (fun p => (p.1, cursorDecode p.2))).find? (fun p => decide (p.1 = k))).map Prod.snd =
      ((l.find? (fun p => decide (p.1 = k))).map Prod.snd).map cursorDecode := by
  induction l with
  | nil => rfl
  | cons p rest ih =>
    by_cases hp : p.1 = k
    · simp [List.find?_cons, hp]
    · simp only [List.map_cons, List.find?_cons, hp, decide_False]
      exact ih

theorem decodeResponse_get? (r : Response) (k : String) :
    (decodeResponse r).Answers.get? k = (r.Answers.get? k).map cursorDecode := by
  unfold decodeResponse GoMap.get?
  exact find?_map_decode r.Answers.entries k

theorem cursorDecode_not_list (v : Value) (items : List Value) :
    cursorDecode v ≠ .list items := by
  cases v <;> simp [cursorDecode]

theorem scanSkip_decode (a : Option Value) (h : isListAnswer a = false) :
    scanSkip (a.map cursorDecode) = scanSkip a := by
  cases a with
  | none => rfl
  | some v =>
    cases v with
    | list items => simp [isListAnswer] at h
    | _ => simp [cursorDecode, scanSkip, statedSkip, isNull]

theorem scanShare_decode (label : String) (a : Option Value) (h : isListAnswer a = false) :
    scanShare label (a.map cursorDecode) = scanShare label a := by
  cases a with
  | none => rfl
  | some v =>
    cases v with
    | list items => simp [isListAnswer] at h
    | _ => simp [cursorDecode, scanShare, statedShare, isNull]

theorem scanResponses_skips (form : Form) (rs : List Response) (k : String) :
    (scanResponses form rs).fieldSkips.getD k 0 =
      analyzed form.Fields k *
        rs.countP (fun r => scanSkip ((r.Answers.get? k).map cursorDecode)) := by
  have h := foldl_analyzeResponse_skipsAt form (rs.map decodeResponse) Scan.init k
  rw [List.countP_map] at h
  have h2 : (scanResponses form rs).fieldSkips.getD k 0 =
      analyzed form.Fields k *
        rs.countP ((fun r => scanSkip (r.Answers.get? k)) ∘ decodeResponse) := by
    simpa [Scan.skipsAt, Scan.init, GoMap.getD, GoMap.get?_empty, scanResponses] using h
  rw [h2]
  congr 1
  apply List.countP_congr
  intro r _
  simp [decodeResponse_get?]

theorem scanResponses_buckets (form : Form) (rs : List Response) (k label : String) :
    (scanResponses form rs).bucketAt k label =
      analyzed form.Fields k *
        (rs.map (fun r => scanShare label ((r.Answers.get? k).map cursorDecode))).sum := by
  have h := foldl_analyzeResponse_bucketAt form (rs.map decodeResponse) Scan.init k label
  rw [List.map_map] at h
  have h2 : (scanResponses form rs).bucketAt k label =
      analyzed form.Fields k *
        (rs.map ((fun r => scanShare label (r.Answers.get? k)) ∘ decodeResponse)).sum := by
    simpa [Scan.bucketAt, Scan.init, GoMap.getD, GoMap.get?_empty, scanResponses] using h
  rw [h2]
  congr 2
  apply List.map_congr_left
  intro r _
  simp [decodeResponse_get?]

/-! ## Lemmas on the labels of the buckets -/

theorem GoMap.mem_of_get? {κ α : Type} [DecidableEq κ] {m : GoMap κ α} {k : κ} {v : α}
    (h : m.get? k = some v) : (k, v) ∈ m.entries := by
  unfold GoMap.get? at h
  rw [Option.map_eq_some'] at h
  obtain ⟨p, hp, rfl⟩ := h
  have h1 := List.find?_some hp
  have h2 := List.mem_of_find?_eq_some hp
  simp only [decide_eq_true_eq] at h1
  rw [← h1]
  exact h2

theorem GoMap.mem_entries_set {κ α : Type} [DecidableEq κ] {m : GoMap κ α} {k : κ} {v : α}
    {p : κ × α} (h : p ∈ (m.set k v).entries) : p = (k, v) ∨ p ∈ m.entries := by
  simp only [GoMap.set, List.mem_cons, List.mem_filter] at h
  rcases h with h | h
  · exact Or.inl h
  · exact Or.inr h.1

theorem goodBuckets_empty : GoodBuckets GoMap.empty := by
  simp [GoodBuckets, GoMap.empty, GoMap.keys]

theorem goodBuckets_incr {b : GoMap String Nat} (label : String) (h : GoodBuckets b)
    (hl : label ≠ "") : GoodBuckets (b.incr label) := by
  unfold GoMap.incr
  refine ⟨GoMap.nodup_keys_set _ _ h.1, ?_⟩
  intro p hp
  rcases GoMap.mem_entries_set hp with rfl | hp
  · exact ⟨hl, Nat.succ_pos _⟩
  · exact h.2 p hp

theorem goodBuckets_after {b : GoMap String Nat} (val : Value) (h : GoodBuckets b)
    (hv : ∀ items, val ≠ .list items) : GoodBuckets (bucketsAfter b val) := by
  cases val with
  | str v =>
    by_cases hs : v = ""
    · simpa [bucketsAfter, hs] using h
    · simpa [bucketsAfter, hs] using goodBuckets_incr v h hs
  | bool v =>
    simp only [bucketsAfter]
    cases v
    · exact goodBuckets_incr _ h (by decide)
    · exact goodBuckets_incr _ h (by decide)
  | list items => exact absurd rfl (hv items)
  | _ => exact goodBuckets_incr _ h (by decide)

theorem classify_good (st : Scan) (g : Field) (val : Value)
    (h : GoodBreakdown st.FieldBreakdown) (hv : ∀ items, val ≠ .list items) :
    GoodBreakdown (classify st g val).FieldBreakdown := by
  rw [classify_FieldBreakdown]
  refine ⟨GoMap.nodup_keys_set _ _ h.1, ?_⟩
  intro p hp
  rcases GoMap.mem_entries_set hp with rfl | hp
  · apply goodBuckets_after _ _ hv
    unfold GoMap.getD
    cases hg : st.FieldBreakdown.get? g.ID with
    | none => exact goodBuckets_empty
    | some d => exact h.2 (g.ID, d) (GoMap.mem_of_get? hg)
  · exact h.2 p hp

theorem analyzeField_good (r : Response) (st : Scan) (g : Field)
    (hr : ∀ k items, r.Answers.get? k ≠ some (.list items))
    (h : GoodBreakdown st.FieldBreakdown) :
    GoodBreakdown (analyzeField r st g).FieldBreakdown := by
  unfold analyzeField
  by_cases hp : g.IsPII = true
  · simpa [hp] using h
  · simp only [hp, Bool.false_eq_true, if_false]
    cases hg : r.Answers.get? g.ID with
    | none => exact h
    | some val =>
      have hv : ∀ items, val ≠ .list items := by
        intro items e
        exact hr g.ID items (by rw [hg, e])
      cases val with
      | null => exact h
      | _ => exact classify_good _ g _ h hv

theorem foldl_analyzeField_good (r : Response) (fields : List Field) (st : Scan)
    (hr : ∀ k items, r.Answers.get? k ≠ some (.list items))
    (h : GoodBreakdown st.FieldBreakdown) :
    GoodBreakdown (fields.foldl (analyzeField r) st).FieldBreakdown := by
  induction fields generalizing st with
  | nil => exact h
  | cons g rest ih =>
    rw [List.foldl_cons]
    exact ih _ (analyzeField_good r st g hr h)

theorem decodeResponse_no_list (r : Response) (k : String) (items : List Value) :
    (decodeResponse r).Answers.get? k ≠ some (.list items) := by
  rw [decodeResponse_get?]
  cases r.Answers.get? k with
  | none => simp
  | some v =>
    simp only [Option.map_some', ne_eq, Option.some.injEq]
    exact cursorDecode_not_list v items

theorem scanResponses_good (form : Form) (rs : List Response) :
    GoodBreakdown (scanResponses form rs).FieldBreakdown := by
  unfold scanResponses
  have key : ∀ (l : List Response) (st : Scan),
      (∀ r ∈ l, ∀ k items, r.Answers.get? k ≠ some (.list items)) →
      GoodBreakdown st.FieldBreakdown →
      GoodBreakdown (l.foldl (analyzeResponse form) st).FieldBreakdown := by
    intro l
    induction l with
    | nil => intro st _ h; exact h
    | cons r rest ih =>
      intro st hl h
      rw [List.foldl_cons]
      apply ih _ (fun x hx => hl x (List.mem_cons_of_mem _ hx))
      unfold analyzeResponse
      exact foldl_analyzeField_good r form.Fields _ (hl r (List.mem_cons_self _ _)) h
  apply key
  · intro r hr
    rw [List.mem_map] at hr
    obtain ⟨r0, _, rfl⟩ := hr
    exact decodeResponse_no_list r0
  · simp [GoodBreakdown, Scan.init, GoMap.empty, GoMap.keys]

theorem mostCommon_fold (l : List (String × Nat)) (best : Nat × String) :
    (∀ p ∈ l, p.2 ≤ (l.foldl (fun best p => if p.2 > best.1 then (p.2, p.1) else best)
        best).1) ∧
      best.1 ≤ (l.foldl (fun best p => if p.2 > best.1 then (p.2, p.1) else best) best).1 ∧
      (l.foldl (fun best p => if p.2 > best.1 then (p.2, p.1) else best) best = best ∨
        ((l.foldl (fun best p => if p.2 > best.1 then (p.2, p.1) else best) best).2,
          (l.foldl (fun best p => if p.2 > best.1 then (p.2, p.1) else best) best).1) ∈ l) := by
  induction l generalizing best with
  | nil => simp
  | cons p rest ih =>
    rw [List.foldl_cons]
    obtain ⟨h1, h2, h3⟩ := ih (if p.2 > best.1 then (p.2, p.1) else best)
    by_cases hp : p.2 > best.1
    · rw [if_pos hp] at h1 h2 h3 ⊢
      refine ⟨?_, ?_, ?_⟩
      · intro q hq
        rcases List.mem_cons.mp hq with rfl | hq
        · exact h2
        · exact h1 q hq
      · exact le_trans (le_of_lt hp) h2
      · right
        rcases h3 with h3 | h3
        · rw [h3]
          exact List.mem_cons_self _ _
        · exact List.mem_cons_of_mem _ h3
    · rw [if_neg hp] at h1 h2 h3 ⊢
      refine ⟨?_, h2, ?_⟩
      · intro q hq
        rcases List.mem_cons.mp hq with rfl | hq
        · exact le_trans (not_lt.mp hp) h2
        · exact h1 q hq
      · rcases h3 with h3 | h3
        · exact Or.inl h3
        · exact Or.inr (List.mem_cons_of_mem _ h3)

theorem mostCommon_spec (l : List (String × Nat)) (hne : l ≠ [])
    (hpos : ∀ p ∈ l, 0 < p.2) :
    (∀ p ∈ l, p.2 ≤ (mostCommon l).1) ∧ ((mostCommon l).2, (mostCommon l).1) ∈ l := by
  obtain ⟨h1, _, h3⟩ := mostCommon_fold l (0, "")
  refine ⟨h1, ?_⟩
  rcases h3 with h3 | h3
  · exfalso
    obtain ⟨p, hp⟩ := List.exists_mem_of_ne_nil l hne
    have h4 := h1 p hp
    have h5 := hpos p hp
    rw [h3] at h4
    simp only at h4
    omega
  · exact h3

theorem mostCommonAnswers_get? (rangeOrder : String → List (String × Nat) → List (String × Nat))
    (breakdown : GoMap String Distribution) (hnd : breakdown.keys.Nodup) (k : String) :
    (mostCommonAnswers rangeOrder breakdown).get? k =
      match breakdown.get? k with
      | none => none
      | some d =>
        if (mostCommon (rangeOrder k d.Buckets.entries)).2 ≠ "" then
          some (mostCommon (rangeOrder k d.Buckets.entries)).2
        else none := by
  unfold mostCommonAnswers
  have key : ∀ (l : List (String × Distribution)) (acc : GoMap String String),
      (l.map Prod.fst).Nodup →
      (l.foldl
        (fun out p =>
          let best := (mostCommon (rangeOrder p.1 p.2.Buckets.entries)).2
          if best ≠ "" then out.set p.1 best else out) acc).get? k =
        match (l.find? (fun p => decide (p.1 = k))).map Prod.snd with
        | none => acc.get? k
        | some d =>
          if (mostCommon (rangeOrder k d.Buckets.entries)).2 ≠ "" then
            some (mostCommon (rangeOrder k d.Buckets.entries)).2
          else acc.get? k := by
    intro l
    induction l with
    | nil => intro acc _; rfl
    | cons x rest ih =>
      intro acc hn
      rw [List.map_cons, List.nodup_cons] at hn
      rw [List.foldl_cons, ih _ hn.2]
      by_cases hx : x.1 = k
      · have hnone : rest.find? (fun p => decide (p.1 = k)) = none := by
          rw [List.find?_eq_none]
          intro p hp
          simp only [decide_eq_true_eq]
          intro e
          exact hn.1 (hx ▸ e ▸ List.mem_map_of_mem Prod.fst hp)
        rw [hnone, List.find?_cons_of_pos _ (by simpa using hx)]
        simp only [Option.map_none', Option.map_some']
        subst hx
        by_cases hb : (mostCommon (rangeOrder x.1 x.2.Buckets.entries)).2 = ""
        · simp [hb]
        · simp [hb, GoMap.get?_set_self]
      · have hk : k ≠ x.1 := fun e => hx e.symm
        rw [List.find?_cons_of_neg _ (by simpa using hx)]
        have hacc : (if (mostCommon (rangeOrder x.1 x.2.Buckets.entries)).2 ≠ "" then
            acc.set x.1 (mostCommon (rangeOrder x.1 x.2.Buckets.entries)).2
          else acc).get? k = acc.get? k := by
          split_ifs
          · exact GoMap.get?_set_ne _ _ hk
          · rfl
        simp only [hacc]
  rw [key breakdown.entries GoMap.empty hnd]
  have hg : breakdown.get? k =
      (breakdown.entries.find? (fun p => decide (p.1 = k))).map Prod.snd := rfl
  rw [hg]
  cases (breakdown.entries.find? (fun p => decide (p.1 = k))).map Prod.snd with
  | none => rfl
  | some d =>
    simp only [GoMap.get?_empty]

/-! ## The claims on the analytics -/

/-- C7: in a form with unique field identifiers, the identifier of a PII field is no key
of `FieldBreakdown`, of `AverageRating` or of `MostCommonAnswers`, and no `FieldID` of
an entry of `SkippedFields`, for every history of submissions. -/
theorem pii_never_reported (form : Form) (responses : List Response) (today : Int)
    (rangeOrder : String → List (String × Nat) → List (String × Nat))
    (hnd : (form.Fields.map Field.ID).Nodup) (f : Field) (hf : f ∈ form.Fields)
    (hp : f.IsPII = true) :
    f.ID ∉ (computeAnalytics form responses today rangeOrder).FieldBreakdown.keys ∧
      f.ID ∉ (computeAnalytics form responses today rangeOrder).AverageRating.keys ∧
      f.ID ∉ (computeAnalytics form responses today rangeOrder).MostCommonAnswers.keys ∧
      ∀ s ∈ (computeAnalytics form responses today rangeOrder).SkippedFields,
        s.FieldID ≠ f.ID := by
  have hno := not_analyzable_of_pii hnd hf hp
  refine ⟨?_, ?_, ?_, ?_⟩
  · intro h
    exact hno (scanResponses_keys form responses f.ID (Or.inl h))
  · intro h
    exact hno (scanResponses_keys form responses f.ID
      (Or.inr (averageRating_keys _ _ _ h)))
  · intro h
    exact hno (scanResponses_keys form responses f.ID
      (Or.inl (mostCommonAnswers_keys _ _ _ h)))
  · intro s hs hid
    obtain ⟨g, hg, hgp, hsg, _, _⟩ := skippedFields_mem hs
    exact hno ⟨g, hg, hgp, hsg.symm.trans hid⟩

/-- C7, at the form `q1, mail` with two submissions that both answer the PII field
`mail`: `mail` is in no part of the report, and `q1` is in the distributions. -/
theorem pii_never_reported_witness :
    ("mail" ∉ (computeAnalytics formContact historyContact 5 storedOrder).FieldBreakdown.keys ∧
      "mail" ∉ (computeAnalytics formContact historyContact 5 storedOrder).AverageRating.keys ∧
      "mail" ∉
        (computeAnalytics formContact historyContact 5 storedOrder).MostCommonAnswers.keys ∧
      ∀ s ∈ (computeAnalytics formContact historyContact 5 storedOrder).SkippedFields,
        s.FieldID ≠ "mail") ∧
      (computeAnalytics formContact historyContact 5 storedOrder).FieldBreakdown.keys =
        ["q1"] :=
  ⟨pii_never_reported formContact historyContact 5 storedOrder (by decide) fieldMail
      (by simp [formContact]) rfl,
    by decide⟩

/-- C8 as stated fails: in the one submission, which the validation accepts, the field
`tags` has the entry `null`, no missing entry, empty string or empty list; the scan counts one skip
for it where the specification counts none, and leaves the bucket `other` empty where
the specification adds 1. -/
theorem null_answer_counted_as_skip :
    validateSubmission formTags ⟨[("tags", .null)]⟩ = .ok ∧
      ((computeAnalytics formTags historyNull 0 storedOrder).SkippedFields.map
        (fun s => (s.FieldID, s.SkipCount)) = [("tags", 1)]) ∧
      historyNull.countP (fun r => statedSkip (r.Answers.get? "tags")) = 0 ∧
      (computeAnalytics formTags historyNull 0 storedOrder).bucketCount "tags" "other" = 0 ∧
      (historyNull.map (fun r => statedShare "other" (r.Answers.get? "tags"))).sum = 1 := by
  refine ⟨by decide, by decide, by decide, by decide, by decide⟩

/-- C8, amended: for a field that is not PII and whose stored answers are no lists, in
a form with unique field identifiers, the report lists the field in `SkippedFields`
with a skip count equal to the number of submissions in which the field has no entry,
the entry `null` or the empty string; and each bucket of `FieldBreakdown` for the
field holds the sum, over the submissions, of what the shape of the answer adds to it
(`null` adding nothing). -/
theorem field_counts_by_shape (form : Form) (responses : List Response) (today : Int)
    (rangeOrder : String → List (String × Nat) → List (String × Nat))
    (hnd : (form.Fields.map Field.ID).Nodup) (f : Field) (hf : f ∈ form.Fields)
    (hp : f.IsPII = false)
    (hl : ∀ r ∈ responses, isListAnswer (r.Answers.get? f.ID) = false) :
    (∃ s ∈ (computeAnalytics form responses today rangeOrder).SkippedFields,
        s.FieldID = f.ID) ∧
      (∀ s ∈ (computeAnalytics form responses today rangeOrder).SkippedFields,
        s.FieldID = f.ID →
          s.SkipCount = responses.countP (fun r => scanSkip (r.Answers.get? f.ID))) ∧
      (∀ label, (computeAnalytics form responses today rangeOrder).bucketCount f.ID label =
        (responses.map (fun r => scanShare label (r.Answers.get? f.ID))).sum) := by
  have h1 := analyzed_eq_one hnd hf hp
  have hskip : (scanResponses form responses).fieldSkips.getD f.ID 0 =
      responses.countP (fun r => scanSkip (r.Answers.get? f.ID)) := by
    rw [scanResponses_skips, h1, Nat.one_mul]
    apply List.countP_congr
    intro r hr
    rw [scanSkip_decode _ (hl r hr)]
  refine ⟨?_, ?_, ?_⟩
  · obtain ⟨s, hs, hid, _⟩ :=
      skippedFields_has (scanResponses form responses).fieldSkips
        (scanResponses form responses).count hf hp
    exact ⟨s, hs, hid⟩
  · intro s hs hid
    obtain ⟨g, hg, _, hsg, _, hc⟩ := skippedFields_mem hs
    have hgf : g = f := List.inj_on_of_nodup_map hnd hg hf (hsg.symm.trans hid)
    rw [hc, hgf]
    exact hskip
  · intro label
    show (scanResponses form responses).bucketAt f.ID label = _
    rw [scanResponses_buckets, h1, Nat.one_mul]
    congr 1
    apply List.map_congr_left
    intro r hr
    rw [scanShare_decode _ _ (hl r hr)]

/-- C8, amended, at the form `q1, q2` with the submission `q1 = "hi"`: one skip is
counted for `q2`, none for `q1`, and the bucket `hi` of `q1` holds 1. -/
theorem field_counts_by_shape_witness :
    (∀ s ∈ (computeAnalytics formSurvey historySurvey 0 storedOrder).SkippedFields,
        s.FieldID = "q2" → s.SkipCount = 1) ∧
      (computeAnalytics formSurvey historySurvey 0 storedOrder).bucketCount "q1" "hi" = 1 ∧
      (computeAnalytics formSurvey historySurvey 0 storedOrder).SkippedFields.map
        (fun s => (s.FieldID, s.SkipCount)) = [("q1", 0), ("q2", 1)] :=
  ⟨(field_counts_by_shape formSurvey historySurvey 0 storedOrder (by decide) fieldRating
      (by simp [formSurvey]) rfl (by decide)).2.1,
    by decide, by decide⟩

/-- C9: at the form `q1, q2` with the one submission `q1 = "hi"` (so `q2` is skipped),
one field slot of two is answered and the rate of the specification is 50, while
`computeAnalytics` subtracts the skip count of `q1`, the first field, from the count
of every field and reports 100. -/
theorem completion_rate_uses_first_field_skips :
    totalAnswered fieldQ1 (scanResponses formSurvey historySurvey).fieldCounts
        (scanResponses formSurvey historySurvey).fieldSkips = 2 ∧
      (computeAnalytics formSurvey historySurvey 0 storedOrder).CompletionRate = 100 ∧
      statedCompletionRate formSurvey historySurvey = 50 := by
  have hc : (scanResponses formSurvey historySurvey).fieldCounts =
      ⟨[("q2", 1), ("q1", 1)]⟩ := rfl
  have hs : (scanResponses formSurvey historySurvey).fieldSkips = ⟨[("q2", 1)]⟩ := rfl
  have hn : (scanResponses formSurvey historySurvey).count = 1 := by decide
  have hf : formSurvey.Fields = [fieldQ1, fieldRating] := rfl
  refine ⟨by decide, ?_, ?_⟩
  · simp only [computeAnalytics, completionRate, hf, hc, hs, hn]
    have ht : totalAnswered fieldQ1 ⟨[("q2", 1), ("q1", 1)]⟩ ⟨[("q2", 1)]⟩ = 2 := by decide
    rw [ht]
    norm_num
  · simp only [statedCompletionRate, hf, hc, hs, hn]
    have ht : (List.map (fun p : String × Nat =>
        (p.2 : Int) - ((GoMap.getD (⟨[("q2", 1)]⟩ : GoMap String Nat) p.1 0 : Nat) : Int))
        [("q2", 1), ("q1", 1)]).sum = 1 := by decide
    rw [ht]
    norm_num

/-- C10: for every order of iteration over the buckets and every field identifier
(so for every field that is not PII) whose distribution in the report has at least one
bucket, `MostCommonAnswers` has an entry for it, the entry is one of the bucket labels
of the distribution, and no bucket of the distribution has a greater count than the
bucket of that label. -/
theorem most_common_is_maximal (form : Form) (responses : List Response) (today : Int)
    (rangeOrder : String → List (String × Nat) → List (String × Nat))
    (hperm : ∀ id l, (rangeOrder id l).Perm l) (id : String) (d : Distribution)
    (hd : (computeAnalytics form responses today rangeOrder).FieldBreakdown.get? id = some d)
    (hne : d.Buckets.entries ≠ []) :
    ∃ label, (computeAnalytics form responses today rangeOrder).MostCommonAnswers.get? id =
        some label ∧
      label ∈ d.Buckets.keys ∧
      ∀ other n, d.Buckets.get? other = some n → n ≤ d.Buckets.getD label 0 := by
  have hgood := scanResponses_good form responses
  have hd2 : (scanResponses form responses).FieldBreakdown.get? id = some d := hd
  have hb : GoodBuckets d.Buckets := hgood.2 (id, d) (GoMap.mem_of_get? hd2)
  have hmc : (computeAnalytics form responses today rangeOrder).MostCommonAnswers.get? id =
      if (mostCommon (rangeOrder id d.Buckets.entries)).2 ≠ "" then
        some (mostCommon (rangeOrder id d.Buckets.entries)).2
      else none := by
    show (mostCommonAnswers rangeOrder (scanResponses form responses).FieldBreakdown).get? id = _
    rw [mostCommonAnswers_get? _ _ hgood.1, hd2]
  have hp := hperm id d.Buckets.entries
  have hne2 : rangeOrder id d.Buckets.entries ≠ [] := by
    intro h
    rw [h] at hp
    exact hne (List.Perm.nil_eq hp).symm
  have hpos : ∀ p ∈ rangeOrder id d.Buckets.entries, 0 < p.2 :=
    fun p hp2 => (hb.2 p (hp.mem_iff.mp hp2)).2
  obtain ⟨hmax, hmem⟩ := mostCommon_spec _ hne2 hpos
  have hmem2 := hp.mem_iff.mp hmem
  have hlabel : (mostCommon (rangeOrder id d.Buckets.entries)).2 ≠ "" := (hb.2 _ hmem2).1
  refine ⟨(mostCommon (rangeOrder id d.Buckets.entries)).2, ?_, ?_, ?_⟩
  · rw [hmc, if_pos hlabel]
  · exact List.mem_map_of_mem Prod.fst hmem2
  · intro other n hn
    have h1 : d.Buckets.get? (mostCommon (rangeOrder id d.Buckets.entries)).2 =
        some (mostCommon (rangeOrder id d.Buckets.entries)).1 := GoMap.get?_of_mem hb.1 hmem2
    have h2 := hmax (other, n) (hp.mem_iff.mpr (GoMap.mem_of_get? hn))
    simpa [GoMap.getD, h1] using h2

/-- C10, at the form with the field `tags` and the one stored submission `tags = [""]`:
the distribution of `tags` has the one bucket `other`, and `other` is the most common
answer. -/
theorem most_common_is_maximal_witness :
    (∃ label, (computeAnalytics formTags historyEmptyLabel 0 storedOrder).MostCommonAnswers.get?
          "tags" = some label ∧
        label ∈ (GoMap.keys (⟨[("other", 1)]⟩ : GoMap String Nat)) ∧
        ∀ other n, GoMap.get? (⟨[("other", 1)]⟩ : GoMap String Nat) other = some n →
          n ≤ GoMap.getD (⟨[("other", 1)]⟩ : GoMap String Nat) label 0) ∧
      (computeAnalytics formTags historyEmptyLabel 0 storedOrder).MostCommonAnswers.get?
        "tags" = some "other" :=
  ⟨most_common_is_maximal formTags historyEmptyLabel 0 storedOrder
      (fun _ l => List.Perm.refl l) "tags" ⟨⟨[("other", 1)]⟩⟩ rfl (by simp),
    by decide⟩

/-- C12: over an empty history the report has the count 0, an empty `FieldBreakdown`
(so no bucket count), lists every field that is not PII with the skip count 0 and
the skip rate 0, and has the trend of the 7 consecutive days that end today, in
ascending order, each with the count 0. -/
theorem empty_history_report (form : Form) (today : Int)
    (rangeOrder : String → List (String × Nat) → List (String × Nat)) :
    (computeAnalytics form [] today rangeOrder).Count = 0 ∧
      (computeAnalytics form [] today rangeOrder).FieldBreakdown.entries = [] ∧
      (∀ id label, (computeAnalytics form [] today rangeOrder).bucketCount id label = 0) ∧
      (computeAnalytics form [] today rangeOrder).SkippedFields.map (fun s => s.FieldID) =
        (form.Fields.filter (fun f => !f.IsPII)).map Field.ID ∧
      (∀ s ∈ (computeAnalytics form [] today rangeOrder).SkippedFields,
        s.SkipCount = 0 ∧ s.SkipRate = 0) ∧
      (computeAnalytics form [] today rangeOrder).ResponseTrends.map
          (fun t => (t.Date, t.Count)) =
        [(today - 6, 0), (today - 5, 0), (today - 4, 0), (today - 3, 0), (today - 2, 0),
          (today - 1, 0), (today, 0)] := by
  have hscan : scanResponses form [] = Scan.init := rfl
  refine ⟨rfl, rfl, fun _ _ => rfl, ?_, ?_, ?_⟩
  · simp [computeAnalytics, skippedFields, List.map_map, Function.comp_def]
  · intro s hs
    obtain ⟨g, _, _, _, _, hc⟩ := skippedFields_mem hs
    simp only [computeAnalytics, hscan, skippedFields, List.mem_map] at hs
    obtain ⟨f, _, rfl⟩ := hs
    simp [Scan.init, GoMap.getD, GoMap.get?_empty]
  · simp [computeAnalytics, hscan, responseTrends, Scan.init, GoMap.getD, GoMap.get?_empty]


/-! ## Lemmas on the sums and the counts of the scan -/

theorem numberOf_decode (a : Option Value) : numberOf (a.map cursorDecode) = numberOf a := by
  cases a with
  | none => rfl
  | some v => cases v <;> simp [cursorDecode, numberOf]

theorem numericAnswers_decode (rs : List Response) (j : String) :
    numericAnswers (rs.map decodeResponse) j = numericAnswers rs j := by
  unfold numericAnswers
  induction rs with
  | nil => rfl
  | cons r rest ih =>
    rw [List.map_cons, List.filterMap_cons, List.filterMap_cons, ih, decodeResponse_get?,
      numberOf_decode]

theorem addAll_append (s : F64) (xs ys : List ℚ) :
    addAll s (xs ++ ys) = addAll (addAll s xs) ys := by
  unfold addAll
  rw [List.foldl_append]

theorem entriesOf_add (m n : Nat) (a : Option ℚ) :
    entriesOf (m + n) a = entriesOf m a ++ entriesOf n a := by
  cases a with
  | none => rfl
  | some x => exact List.replicate_add m n x

theorem classify_sums (st : Scan) (g : Field) (val : Value) (j : String) :
    (classify st g val).sums.getD j (.finite 0) =
      addAll (st.sums.getD j (.finite 0))
        (entriesOf (if g.ID = j then 1 else 0) (numberOf (some val))) := by
  cases val with
  | num x =>
    have hs : (classify st g (.num x)).sums =
        st.sums.set g.ID (F64.add (st.sums.getD g.ID (.finite 0)) (.finite x)) := rfl
    rw [hs]
    by_cases hj : g.ID = j
    · subst hj
      rw [GoMap.getD_set_self, if_pos rfl]
      rfl
    · have hne : j ≠ g.ID := fun e => hj e.symm
      rw [GoMap.getD_set_ne _ _ _ hne, if_neg hj]
      rfl
  | str v => by_cases hv : v = "" <;> simp [classify, hv, numberOf, addAll, entriesOf]
  | list items => cases items <;> simp [classify, numberOf, addAll, entriesOf]
  | _ => simp [classify, numberOf, addAll, entriesOf]

theorem classify_counts (st : Scan) (g : Field) (val : Value) (j : String) :
    (classify st g val).counts.getD j 0 =
      st.counts.getD j 0 +
        if g.ID = j then (if (numberOf (some val)).isSome = true then 1 else 0) else 0 := by
  cases val with
  | num x => simp [classify, numberOf, GoMap.getD_incr]
  | str v => by_cases hv : v = "" <;> simp [classify, hv, numberOf]
  | list items => cases items <;> simp [classify, numberOf]
  | _ => simp [classify, numberOf]

theorem classify_fieldCounts (st : Scan) (g : Field) (val : Value) :
    (classify st g val).fieldCounts = st.fieldCounts := by
  cases val with
  | str v => by_cases hv : v = "" <;> simp [classify, hv]
  | list items => cases items <;> simp [classify]
  | _ => simp [classify]

theorem analyzeField_fieldCounts (r : Response) (st : Scan) (g : Field) :
    (analyzeField r st g).fieldCounts =
      if g.IsPII = true then st.fieldCounts else st.fieldCounts.incr g.ID := by
  unfold analyzeField
  by_cases hp : g.IsPII = true
  · simp [hp]
  · simp only [hp, Bool.false_eq_true, if_false]
    cases hg : r.Answers.get? g.ID with
    | none => rfl
    | some val =>
      cases val with
      | null => rfl
      | _ => simp only [classify_fieldCounts]

theorem analyzeField_sums (r : Response) (st : Scan) (g : Field) (j : String) :
    (analyzeField r st g).sums.getD j (.finite 0) =
      addAll (st.sums.getD j (.finite 0))
        (entriesOf (if (!g.IsPII && decide (g.ID = j)) = true then 1 else 0)
          (numberOf (r.Answers.get? j))) := by
  unfold analyzeField
  by_cases hp : g.IsPII = true
  · cases numberOf (r.Answers.get? j) <;> simp [hp, addAll, entriesOf]
  · simp only [hp, Bool.false_eq_true, if_false]
    have hp2 : g.IsPII = false := by simpa using hp
    by_cases hj : g.ID = j
    · subst hj
      cases hg : r.Answers.get? g.ID with
      | none => simp [numberOf, addAll, entriesOf]
      | some val =>
        cases val with
        | null => simp [numberOf, addAll, entriesOf]
        | _ => simp [classify_sums, hp2]
    · have he : ∀ a : Option ℚ, entriesOf 0 a = [] := by
        intro a
        cases a <;> rfl
      cases hg : r.Answers.get? g.ID with
      | none => simp [hj, he, addAll]
      | some val =>
        cases val with
        | null => simp [hj, he, addAll]
        | _ => simp [classify_sums, hj, he, addAll]

theorem analyzeField_counts (r : Response) (st : Scan) (g : Field) (j : String) :
    (analyzeField r st g).counts.getD j 0 =
      st.counts.getD j 0 +
        (if (!g.IsPII && decide (g.ID = j)) = true then 1 else 0) *
          (if (numberOf (r.Answers.get? j)).isSome = true then 1 else 0) := by
  unfold analyzeField
  by_cases hp : g.IsPII = true
  · simp [hp]
  · simp only [hp, Bool.false_eq_true, if_false]
    have hp2 : g.IsPII = false := by simpa using hp
    by_cases hj : g.ID = j
    · subst hj
      cases hg : r.Answers.get? g.ID with
      | none => simp [numberOf]
      | some val =>
        cases val with
        | null => simp [numberOf]
        | _ => simp [classify_counts, hp2]
    · cases hg : r.Answers.get? g.ID with
      | none => simp [hj]
      | some val =>
        cases val with
        | null => simp [hj]
        | _ => simp [classify_counts, hj]

theorem foldl_analyzeField_sums (r : Response) (fields : List Field) (st : Scan)
    (j : String) :
    (fields.foldl (analyzeField r) st).sums.getD j (.finite 0) =
      addAll (st.sums.getD j (.finite 0))
        (entriesOf (analyzed fields j) (numberOf (r.Answers.get? j))) := by
  induction fields generalizing st with
  | nil => cases numberOf (r.Answers.get? j) <;> simp [analyzed, addAll, entriesOf]
  | cons g rest ih =>
    rw [List.foldl_cons, ih, analyzeField_sums, ← addAll_append, ← entriesOf_add]
    unfold analyzed
    rw [List.countP_cons, Nat.add_comm]

theorem foldl_analyzeField_counts (r : Response) (fields : List Field) (st : Scan)
    (j : String) :
    (fields.foldl (analyzeField r) st).counts.getD j 0 =
      st.counts.getD j 0 +
        analyzed fields j * (if (numberOf (r.Answers.get? j)).isSome = true then 1 else 0) := by
  induction fields generalizing st with
  | nil => simp [analyzed]
  | cons g rest ih =>
    rw [List.foldl_cons, ih, analyzeField_counts]
    unfold analyzed
    rw [List.countP_cons]
    ring

theorem foldl_analyzeField_fieldCounts (r : Response) (fields : List Field) (st : Scan)
    (j : String) :
    (fields.foldl (analyzeField r) st).fieldCounts.getD j 0 =
      st.fieldCounts.getD j 0 + analyzed fields j := by
  induction fields generalizing st with
  | nil => simp [analyzed]
  | cons g rest ih =>
    rw [List.foldl_cons, ih, analyzeField_fieldCounts]
    unfold analyzed
    rw [List.countP_cons]
    by_cases hp : g.IsPII = true
    · simp [hp]
    · have hp2 : g.IsPII = false := by simpa using hp
      rw [if_neg hp, GoMap.getD_incr]
      simp only [hp2, Bool.not_false, Bool.true_and, decide_eq_true_eq]
      omega

theorem numericAnswers_cons (r : Response) (rs : List Response) (j : String) :
    (numericAnswers (r :: rs) j).length =
      (if (numberOf (r.Answers.get? j)).isSome = true then 1 else 0) +
        (numericAnswers rs j).length := by
  unfold numericAnswers
  cases h : numberOf (r.Answers.get? j) with
  | none => simp [List.filterMap_cons, h]
  | some x => simp [List.filterMap_cons, h, Nat.add_comm]

theorem numericEntries_cons (fields : List Field) (r : Response) (rs : List Response)
    (j : String) :
    numericEntries fields (r :: rs) j =
      entriesOf (analyzed fields j) (numberOf (r.Answers.get? j)) ++
        numericEntries fields rs j := by
  unfold numericEntries numericAnswers
  cases h : numberOf (r.Answers.get? j) with
  | none => simp [List.filterMap_cons, h, entriesOf]
  | some x => simp [List.filterMap_cons, h, entriesOf, List.flatMap_cons]

theorem numericEntries_length (fields : List Field) (rs : List Response) (j : String) :
    (numericEntries fields rs j).length =
      analyzed fields j * (numericAnswers rs j).length := by
  induction rs with
  | nil => simp [numericEntries, numericAnswers]
  | cons r rest ih =>
    rw [numericEntries_cons, List.length_append, ih, numericAnswers_cons]
    cases h : numberOf (r.Answers.get? j) with
    | none => simp [entriesOf]
    | some x =>
      simp only [entriesOf, List.length_replicate, Option.isSome_some, if_true]
      ring

theorem numericEntries_of_one (fields : List Field) (rs : List Response) (j : String)
    (h : analyzed fields j = 1) : numericEntries fields rs j = numericAnswers rs j := by
  unfold numericEntries
  rw [h]
  induction numericAnswers rs j with
  | nil => rfl
  | cons x rest ih => simp [List.flatMap_cons, ih]

theorem numericEntries_decode (fields : List Field) (rs : List Response) (j : String) :
    numericEntries fields (rs.map decodeResponse) j = numericEntries fields rs j := by
  unfold numericEntries
  rw [numericAnswers_decode]

theorem foldl_analyzeResponse_sums (form : Form) (rs : List Response) (st : Scan)
    (j : String) :
    (rs.foldl (analyzeResponse form) st).sums.getD j (.finite 0) =
      addAll (st.sums.getD j (.finite 0)) (numericEntries form.Fields rs j) := by
  induction rs generalizing st with
  | nil => simp [numericEntries, numericAnswers, addAll]
  | cons r rest ih =>
    rw [List.foldl_cons, ih, numericEntries_cons, addAll_append]
    unfold analyzeResponse
    rw [foldl_analyzeField_sums]

theorem foldl_analyzeResponse_counts (form : Form) (rs : List Response) (st : Scan)
    (j : String) :
    (rs.foldl (analyzeResponse form) st).counts.getD j 0 =
      st.counts.getD j 0 + analyzed form.Fields j * (numericAnswers rs j).length := by
  induction rs generalizing st with
  | nil => simp [numericAnswers]
  | cons r rest ih =>
    rw [List.foldl_cons, ih, numericAnswers_cons]
    unfold analyzeResponse
    rw [foldl_analyzeField_counts]
    ring

theorem foldl_analyzeResponse_fieldCounts (form : Form) (rs : List Response) (st : Scan)
    (j : String) :
    (rs.foldl (analyzeResponse form) st).fieldCounts.getD j 0 =
      st.fieldCounts.getD j 0 + analyzed form.Fields j * rs.length := by
  induction rs generalizing st with
  | nil => simp
  | cons r rest ih =>
    rw [List.foldl_cons, ih]
    unfold analyzeResponse
    rw [foldl_analyzeField_fieldCounts, List.length_cons]
    ring

theorem scanResponses_sums (form : Form) (rs : List Response) (j : String) :
    (scanResponses form rs).sums.getD j (.finite 0) =
      addAll (.finite 0) (numericEntries form.Fields rs j) := by
  have h := foldl_analyzeResponse_sums form (rs.map decodeResponse) Scan.init j
  rw [numericEntries_decode] at h
  simpa [Scan.init, GoMap.getD, GoMap.get?_empty, scanResponses] using h

theorem scanResponses_counts (form : Form) (rs : List Response) (j : String) :
    (scanResponses form rs).counts.getD j 0 = (numericEntries form.Fields rs j).length := by
  have h := foldl_analyzeResponse_counts form (rs.map decodeResponse) Scan.init j
  rw [numericAnswers_decode] at h
  rw [numericEntries_length]
  simpa [Scan.init, GoMap.getD, GoMap.get?_empty, scanResponses] using h

theorem GoMap.mem_keys_iff {κ α : Type} [DecidableEq κ] (m : GoMap κ α) (k : κ) :
    k ∈ m.keys ↔ m.get? k ≠ none := by
  unfold GoMap.keys GoMap.get?
  rw [Ne, Option.map_eq_none', List.find?_eq_none, List.mem_map]
  constructor
  · rintro ⟨p, hp, rfl⟩ h
    exact absurd (h p hp) (by simp)
  · intro h
    by_contra hno
    apply h
    intro p hp
    simp only [decide_eq_true_eq]
    intro e
    exact hno ⟨p, hp, e⟩

theorem classify_cover (st : Scan) (g : Field) (val : Value)
    (h : ∀ j, 0 < st.counts.getD j 0 → j ∈ st.sums.keys) :
    ∀ j, 0 < (classify st g val).counts.getD j 0 → j ∈ (classify st g val).sums.keys := by
  intro j hj
  cases val with
  | num x =>
    have hs : (classify st g (.num x)).sums =
        st.sums.set g.ID (F64.add (st.sums.getD g.ID (.finite 0)) (.finite x)) := rfl
    have hc : (classify st g (.num x)).counts = st.counts.incr g.ID := rfl
    rw [hs, GoMap.mem_keys_set_iff]
    rw [hc] at hj
    by_cases e : j = g.ID
    · exact Or.inl e
    · rw [GoMap.getD_incr_ne _ e] at hj
      exact Or.inr (h j hj)
  | str v =>
    by_cases hv : v = ""
    · simp [classify, hv] at hj ⊢
      exact h j hj
    · simp [classify, hv] at hj ⊢
      exact h j hj
  | list items =>
    cases items with
    | nil =>
      simp [classify] at hj ⊢
      exact h j hj
    | cons it rest =>
      simp [classify] at hj ⊢
      exact h j hj
  | _ => exact h j hj

theorem analyzeField_cover (r : Response) (st : Scan) (g : Field)
    (h : ∀ j, 0 < st.counts.getD j 0 → j ∈ st.sums.keys) :
    ∀ j, 0 < (analyzeField r st g).counts.getD j 0 →
      j ∈ (analyzeField r st g).sums.keys := by
  unfold analyzeField
  by_cases hp : g.IsPII = true
  · simpa [hp] using h
  · simp only [hp, Bool.false_eq_true, if_false]
    cases hg : r.Answers.get? g.ID with
    | none => exact h
    | some val =>
      cases val with
      | null => exact h
      | _ => exact classify_cover _ g _ h

theorem foldl_analyzeField_cover (r : Response) (fields : List Field) (st : Scan)
    (h : ∀ j, 0 < st.counts.getD j 0 → j ∈ st.sums.keys) :
    ∀ j, 0 < (fields.foldl (analyzeField r) st).counts.getD j 0 →
      j ∈ (fields.foldl (analyzeField r) st).sums.keys := by
  induction fields generalizing st with
  | nil => exact h
  | cons g rest ih =>
    rw [List.foldl_cons]
    exact ih _ (analyzeField_cover r st g h)

theorem scanResponses_cover (form : Form) (rs : List Response) :
    ∀ j, 0 < (scanResponses form rs).counts.getD j 0 →
      j ∈ (scanResponses form rs).sums.keys := by
  unfold scanResponses
  have key : ∀ (l : List Response) (st : Scan),
      (∀ j, 0 < st.counts.getD j 0 → j ∈ st.sums.keys) →
      ∀ j, 0 < (l.foldl (analyzeResponse form) st).counts.getD j 0 →
        j ∈ (l.foldl (analyzeResponse form) st).sums.keys := by
    intro l
    induction l with
    | nil => intro st h; exact h
    | cons r rest ih =>
      intro st h
      rw [List.foldl_cons]
      apply ih
      unfold analyzeResponse
      exact foldl_analyzeField_cover r form.Fields _ h
  apply key
  intro j hj
  simp [Scan.init, GoMap.getD, GoMap.get?_empty] at hj

theorem averageRating_get? (sums : GoMap String F64) (counts : GoMap String Nat)
    (k : String) :
    (averageRating sums counts).get? k =
      if k ∈ sums.keys ∧ 0 < counts.getD k 0 then
        some (F64.div (sums.getD k (.finite 0)) (float64OfInt (counts.getD k 0)))
      else none := by
  unfold averageRating
  have key : ∀ (l : List String) (acc : GoMap String F64),
      (l.foldl
        (fun avg k =>
          if counts.getD k 0 > 0 then
            avg.set k (F64.div (sums.getD k (.finite 0)) (float64OfInt (counts.getD k 0)))
          else avg) acc).get? k =
        if k ∈ l ∧ 0 < counts.getD k 0 then
          some (F64.div (sums.getD k (.finite 0)) (float64OfInt (counts.getD k 0)))
        else acc.get? k := by
    intro l
    induction l with
    | nil => intro acc; simp
    | cons x rest ih =>
      intro acc
      rw [List.foldl_cons, ih]
      by_cases hc : 0 < counts.getD k 0
      · by_cases hx : x = k
        · subst hx
          simp [hc, GoMap.get?_set_self]
        · have hk : k ≠ x := fun e => hx e.symm
          by_cases hr : k ∈ rest
          · simp [hc, hr]
          · by_cases hcx : counts.getD x 0 > 0
            · simp [hc, hr, hk, hcx, GoMap.get?_set_ne _ _ hk]
            · simp [hc, hr, hk, hcx]
      · by_cases hx : x = k
        · subst hx
          simp [hc]
        · have hk : k ≠ x := fun e => hx e.symm
          by_cases hcx : counts.getD x 0 > 0
          · simp [hc, hcx, GoMap.get?_set_ne _ _ hk]
          · simp [hc, hcx]
  rw [key]
  simp [GoMap.get?_empty]

theorem analyzed_pos {fields : List Field} {f : Field} (hf : f ∈ fields)
    (hp : f.IsPII = false) : 0 < analyzed fields f.ID := by
  unfold analyzed
  rw [List.countP_pos_iff]
  exact ⟨f, hf, by simp [hp]⟩

theorem numericAnswers_ne_nil_iff (rs : List Response) (j : String) :
    numericAnswers rs j ≠ [] ↔ ∃ r ∈ rs, ∃ x, r.Answers.get? j = some (.num x) := by
  unfold numericAnswers
  rw [Ne, List.filterMap_eq_nil_iff]
  constructor
  · intro h
    by_contra hno
    apply h
    intro r hr
    cases hg : r.Answers.get? j with
    | none => rfl
    | some val =>
      cases val with
      | num x => exact absurd ⟨r, hr, x, hg⟩ hno
      | _ => rfl
  · rintro ⟨r, hr, x, hx⟩ h
    have := h r hr
    simp [hx, numberOf] at this

/-! ## The claim on the averages -/

/-- C11, as stated, fails: the average is a `float64` quotient of a `float64` sum. The
ratings 4, 5 and 5 of the field `q2` have the sum 14 and the quotient 14/3, and the
report holds the nearest `float64`, 5254199565265579 / 2 ^ 50. The answers `10 ^ 16`, 1
and `-10 ^ 16` to the field `tags` have the quotient 1/3, and the report holds 0: the
sum `10 ^ 16 + 1` is rounded to `10 ^ 16`. -/
theorem average_is_rounded :
    numericAnswers historyThreeRatings "q2" = [4, 5, 5] ∧
      (computeAnalytics formSurvey historyThreeRatings 0 storedOrder).AverageRating.get? "q2" =
        some (.finite (5254199565265579 / 1125899906842624)) ∧
      (5254199565265579 / 1125899906842624 : ℚ) ≠ (4 + 5 + 5) / 3 ∧
      numericAnswers historyCancelling "tags" =
        [10000000000000000, 1, -10000000000000000] ∧
      (computeAnalytics formTags historyCancelling 0 storedOrder).AverageRating.get? "tags" =
        some (.finite 0) ∧
      (0 : ℚ) ≠ (10000000000000000 + 1 + -10000000000000000) / 3 := by
  refine ⟨by decide!, by decide!, by norm_num, by decide!, by decide!, by norm_num⟩

/-- C11, amended: for a field of the form that is not PII, `AverageRating` has an entry
for the field exactly when some submission answers it with a number, whatever its
declared type; the entry is the `float64` quotient of the running sum of the scan by
the number of the additions, where the running sum starts at 0 and takes the numeric
answers in the order of the submissions, each sum rounded to a `float64`, and the
answers that are not numbers enter neither. When the identifiers of the fields are
distinct, the numbers added are the numeric answers to the field, each one once. -/
theorem average_is_float64_quotient (form : Form) (responses : List Response) (today : Int)
    (rangeOrder : String → List (String × Nat) → List (String × Nat)) (f : Field)
    (hf : f ∈ form.Fields) (hp : f.IsPII = false) :
    (f.ID ∈ (computeAnalytics form responses today rangeOrder).AverageRating.keys ↔
        ∃ r ∈ responses, ∃ x, r.Answers.get? f.ID = some (.num x)) ∧
      (computeAnalytics form responses today rangeOrder).AverageRating.get? f.ID =
        (if numericAnswers responses f.ID = [] then none
        else some (F64.div (addAll (.finite 0) (numericEntries form.Fields responses f.ID))
          (float64OfInt (numericEntries form.Fields responses f.ID).length))) ∧
      ((form.Fields.map Field.ID).Nodup →
        (computeAnalytics form responses today rangeOrder).AverageRating.get? f.ID =
          if numericAnswers responses f.ID = [] then none
          else some (F64.div (addAll (.finite 0) (numericAnswers responses f.ID))
            (float64OfInt (numericAnswers responses f.ID).length))) := by
  have ha := analyzed_pos hf hp
  have hs := scanResponses_sums form responses f.ID
  have hc := scanResponses_counts form responses f.ID
  have hlen := numericEntries_length form.Fields responses f.ID
  have hget : (computeAnalytics form responses today rangeOrder).AverageRating.get? f.ID =
      if numericAnswers responses f.ID = [] then none
      else some (F64.div (addAll (.finite 0) (numericEntries form.Fields responses f.ID))
        (float64OfInt (numericEntries form.Fields responses f.ID).length)) := by
    show (averageRating (scanResponses form responses).sums
      (scanResponses form responses).counts).get? f.ID = _
    rw [averageRating_get?]
    by_cases hn : numericAnswers responses f.ID = []
    · have h0 : (scanResponses form responses).counts.getD f.ID 0 = 0 := by
        rw [hc, hlen, hn]
        simp
      simp [hn, h0]
    · have hl : 0 < (numericAnswers responses f.ID).length := List.length_pos.mpr hn
      have hpos : 0 < (scanResponses form responses).counts.getD f.ID 0 := by
        rw [hc, hlen]
        exact Nat.mul_pos ha hl
      have hkey := scanResponses_cover form responses f.ID hpos
      rw [if_pos ⟨hkey, hpos⟩, if_neg hn, hs, hc]
  refine ⟨?_, hget, ?_⟩
  · rw [GoMap.mem_keys_iff, hget, ← numericAnswers_ne_nil_iff]
    by_cases hn : numericAnswers responses f.ID = []
    · simp [hn]
    · simp [hn]
  · intro hnd
    rw [hget, numericEntries_of_one _ _ _ (analyzed_eq_one hnd hf hp)]

/-- C11, amended, at the form `q1, q2`: the ratings 4 and 5 of `q2` have the average
9/2, its text answer being left out, and the text field `q1`, answered once with the
number 7, has the average 7. -/
theorem average_is_float64_quotient_witness :
    (fieldRating ∈ formSurvey.Fields ∧ fieldRating.IsPII = false) ∧
      (computeAnalytics formSurvey historyRatings 0 storedOrder).AverageRating.get? "q2" =
        some (.finite (9 / 2)) ∧
      (computeAnalytics formSurvey historyRatings 0 storedOrder).AverageRating.get? "q1" =
        some (.finite 7) :=
  ⟨⟨by simp [formSurvey], rfl⟩,
    ((average_is_float64_quotient formSurvey historyRatings 0 storedOrder fieldRating
      (by simp [formSurvey]) rfl).2.1).trans (by decide!),
    ((average_is_float64_quotient formSurvey historyRatings 0 storedOrder fieldQ1
      (by simp [formSurvey]) rfl).2.1).trans (by decide!)⟩

/-! ## Lemmas on the bounds of the report -/

theorem analyzed_le_one {fields : List Field} (hnd : (fields.map Field.ID).Nodup)
    (k : String) : analyzed fields k ≤ 1 := by
  induction fields with
  | nil => simp [analyzed]
  | cons g rest ih =>
    rw [List.map_cons, List.nodup_cons] at hnd
    by_cases hg : g.ID = k
    · have hz : analyzed rest k = 0 := by
        apply analyzed_eq_zero
        intro x hx hid
        exact absurd (hg.trans hid.symm ▸ List.mem_map_of_mem Field.ID hx) hnd.1
      unfold analyzed at hz ⊢
      rw [List.countP_cons, hz]
      split_ifs <;> omega
    · have h1 := ih hnd.2
      unfold analyzed at h1 ⊢
      rw [List.countP_cons]
      simp only [hg, decide_False, Bool.and_false, Bool.false_eq_true, if_false]
      omega

theorem analyzed_of_analyzable {fields : List Field} {k : String}
    (hnd : (fields.map Field.ID).Nodup) (h : Analyzable fields k) : analyzed fields k = 1 := by
  obtain ⟨g, hg, hp, rfl⟩ := h
  exact analyzed_eq_one hnd hg hp

theorem analyzeField_fieldCounts_inv (r : Response) (all : List Field) (st : Scan)
    (g : Field) (hg : g ∈ all)
    (h : st.fieldCounts.keys.Nodup ∧ ∀ k ∈ st.fieldCounts.keys, Analyzable all k) :
    (analyzeField r st g).fieldCounts.keys.Nodup ∧
      ∀ k ∈ (analyzeField r st g).fieldCounts.keys, Analyzable all k := by
  rw [analyzeField_fieldCounts]
  by_cases hp : g.IsPII = true
  · rw [if_pos hp]
    exact h
  · rw [if_neg hp]
    have hp2 : g.IsPII = false := by simpa using hp
    unfold GoMap.incr
    refine ⟨GoMap.nodup_keys_set _ _ h.1, ?_⟩
    intro k hk
    rcases (GoMap.mem_keys_set_iff _ _ _ _).mp hk with rfl | hk
    · exact ⟨g, hg, hp2, rfl⟩
    · exact h.2 k hk

theorem foldl_analyzeField_fieldCounts_inv (r : Response) (all l : List Field)
    (hl : ∀ g ∈ l, g ∈ all) (st : Scan)
    (h : st.fieldCounts.keys.Nodup ∧ ∀ k ∈ st.fieldCounts.keys, Analyzable all k) :
    (l.foldl (analyzeField r) st).fieldCounts.keys.Nodup ∧
      ∀ k ∈ (l.foldl (analyzeField r) st).fieldCounts.keys, Analyzable all k := by
  induction l generalizing st with
  | nil => exact h
  | cons g rest ih =>
    rw [List.foldl_cons]
    apply ih (fun x hx => hl x (List.mem_cons_of_mem _ hx))
    exact analyzeField_fieldCounts_inv r all st g (hl g (List.mem_cons_self _ _)) h

theorem scanResponses_fieldCounts_inv (form : Form) (rs : List Response) :
    (scanResponses form rs).fieldCounts.keys.Nodup ∧
      ∀ k ∈ (scanResponses form rs).fieldCounts.keys, Analyzable form.Fields k := by
  unfold scanResponses
  have key : ∀ (l : List Response) (st : Scan),
      (st.fieldCounts.keys.Nodup ∧ ∀ k ∈ st.fieldCounts.keys, Analyzable form.Fields k) →
      (l.foldl (analyzeResponse form) st).fieldCounts.keys.Nodup ∧
        ∀ k ∈ (l.foldl (analyzeResponse form) st).fieldCounts.keys,
          Analyzable form.Fields k := by
    intro l
    induction l with
    | nil => intro st h; exact h
    | cons r rest ih =>
      intro st h
      rw [List.foldl_cons]
      apply ih
      unfold analyzeResponse
      exact foldl_analyzeField_fieldCounts_inv r form.Fields form.Fields (fun _ hg => hg) _ h
  apply key
  simp [Scan.init, GoMap.keys, GoMap.empty]

theorem scanResponses_fieldCounts_entry (form : Form) (rs : List Response)
    (hnd : (form.Fields.map Field.ID).Nodup) {p : String × Nat}
    (hp : p ∈ (scanResponses form rs).fieldCounts.entries) : p.2 = rs.length := by
  obtain ⟨hno, han⟩ := scanResponses_fieldCounts_inv form rs
  have hk : p.1 ∈ (scanResponses form rs).fieldCounts.keys :=
    List.mem_map_of_mem Prod.fst hp
  have hget : (scanResponses form rs).fieldCounts.get? p.1 = some p.2 :=
    GoMap.get?_of_mem hno hp
  have h := foldl_analyzeResponse_fieldCounts form (rs.map decodeResponse) Scan.init p.1
  rw [analyzed_of_analyzable hnd (han p.1 hk), List.length_map] at h
  have h2 : (scanResponses form rs).fieldCounts.getD p.1 0 = rs.length := by
    simpa [Scan.init, GoMap.getD, GoMap.get?_empty, scanResponses] using h
  simpa [GoMap.getD, hget] using h2

theorem scanResponses_fieldCounts_length (form : Form) (rs : List Response) :
    (scanResponses form rs).fieldCounts.entries.length ≤ form.Fields.length := by
  obtain ⟨hno, han⟩ := scanResponses_fieldCounts_inv form rs
  have hsub : (scanResponses form rs).fieldCounts.keys ⊆ form.Fields.map Field.ID := by
    intro k hk
    obtain ⟨g, hg, _, rfl⟩ := han k hk
    exact List.mem_map_of_mem Field.ID hg
  have h := (List.subperm_of_subset hno hsub).length_le
  simpa [GoMap.keys] using h

theorem scanResponses_skips_le (form : Form) (rs : List Response)
    (hnd : (form.Fields.map Field.ID).Nodup) (k : String) :
    (scanResponses form rs).fieldSkips.getD k 0 ≤ rs.length := by
  rw [scanResponses_skips]
  calc analyzed form.Fields k *
        rs.countP (fun r => scanSkip ((r.Answers.get? k).map cursorDecode))
      ≤ 1 * rs.length := Nat.mul_le_mul (analyzed_le_one hnd k) (List.countP_le_length _)
    _ = rs.length := Nat.one_mul _

theorem totalAnswered_eq_sum (first : Field) (fieldCounts fieldSkips : GoMap String Nat) :
    totalAnswered first fieldCounts fieldSkips =
      (fieldCounts.entries.map
        (fun p => (p.2 : Int) - (fieldSkips.getD first.ID 0 : Int))).sum := by
  unfold totalAnswered
  have key : ∀ (l : List (String × Nat)) (a : Int),
      l.foldl (fun total p => total + ((p.2 : Int) - (fieldSkips.getD first.ID 0 : Int))) a =
        a + (l.map (fun p => (p.2 : Int) - (fieldSkips.getD first.ID 0 : Int))).sum := by
    intro l
    induction l with
    | nil => intro a; simp
    | cons p rest ih =>
      intro a
      rw [List.foldl_cons, ih, List.map_cons, List.sum_cons]
      ring
  rw [key]
  simp

theorem sum_sub_bounds (l : List (String × Nat)) (c s : Nat) (hs : s ≤ c)
    (hl : ∀ p ∈ l, p.2 = c) :
    0 ≤ (l.map (fun p => (p.2 : Int) - (s : Int))).sum ∧
      (l.map (fun p => (p.2 : Int) - (s : Int))).sum ≤ (l.length : Int) * (c : Int) := by
  induction l with
  | nil => simp
  | cons p rest ih =>
    have hp : p.2 = c := hl p (List.mem_cons_self _ _)
    obtain ⟨h0, h1⟩ := ih (fun x hx => hl x (List.mem_cons_of_mem _ hx))
    rw [List.map_cons, List.sum_cons, List.length_cons, hp]
    push_cast
    constructor
    · omega
    · nlinarith

theorem skippedFields_rate {fields : List Field} {fieldSkips : GoMap String Nat}
    {count : Nat} {s : SkippedField} (h : s ∈ skippedFields fields fieldSkips count) :
    s.SkipRate = if count > 0 then (s.SkipCount : ℚ) / (count : ℚ) * 100 else 0 := by
  unfold skippedFields at h
  rw [List.mem_map] at h
  obtain ⟨g, _, rfl⟩ := h
  rfl

/-! ## The claim on the percentages -/

theorem completionRate_bounds (form : Form) (rs : List Response)
    (hnd : (form.Fields.map Field.ID).Nodup) :
    0 ≤ completionRate form.Fields (scanResponses form rs).count
        (scanResponses form rs).fieldCounts (scanResponses form rs).fieldSkips ∧
      completionRate form.Fields (scanResponses form rs).count
        (scanResponses form rs).fieldCounts (scanResponses form rs).fieldSkips ≤ 100 := by
  rw [scanResponses_count]
  unfold completionRate
  cases hF : form.Fields with
  | nil => norm_num
  | cons first rest =>
    simp only []
    by_cases hc : rs.length > 0
    · rw [if_pos hc, totalAnswered_eq_sum]
      obtain ⟨h0, h1⟩ := sum_sub_bounds (scanResponses form rs).fieldCounts.entries rs.length
        ((scanResponses form rs).fieldSkips.getD first.ID 0)
        (scanResponses_skips_le form rs hnd first.ID)
        (fun p hp => scanResponses_fieldCounts_entry form rs hnd hp)
      have hlen := scanResponses_fieldCounts_length form rs
      rw [hF] at hlen
      have h2 : (List.map (fun p : String × Nat => (p.2 : Int) -
          (((scanResponses form rs).fieldSkips.getD first.ID 0 : Nat) : Int))
          (scanResponses form rs).fieldCounts.entries).sum ≤
          (((first :: rest).length * rs.length : Nat) : Int) := by
        push_cast
        have hl : ((scanResponses form rs).fieldCounts.entries.length : Int) ≤
            ((first :: rest).length : Int) := by exact_mod_cast hlen
        have hr : (0 : Int) ≤ (rs.length : Int) := Int.natCast_nonneg _
        calc _ ≤ ((scanResponses form rs).fieldCounts.entries.length : Int) * (rs.length : Int) := h1
          _ ≤ ((first :: rest).length : Int) * (rs.length : Int) :=
            mul_le_mul_of_nonneg_right hl hr
      have hN : (0 : ℚ) < (((first :: rest).length * rs.length : Nat) : ℚ) := by
        have : 0 < (first :: rest).length * rs.length :=
          Nat.mul_pos (by simp) hc
        exact_mod_cast this
      have hq0 : (0 : ℚ) ≤ ((List.map (fun p : String × Nat => (p.2 : Int) -
          (((scanResponses form rs).fieldSkips.getD first.ID 0 : Nat) : Int))
          (scanResponses form rs).fieldCounts.entries).sum : Int) := by exact_mod_cast h0
      have hq1 : (((List.map (fun p : String × Nat => (p.2 : Int) -
          (((scanResponses form rs).fieldSkips.getD first.ID 0 : Nat) : Int))
          (scanResponses form rs).fieldCounts.entries).sum : Int) : ℚ) ≤
          (((first :: rest).length * rs.length : Nat) : ℚ) := by exact_mod_cast h2
      constructor
      · exact mul_nonneg (div_nonneg hq0 hN.le) (by norm_num)
      · have hd := (div_le_one hN).mpr hq1
        calc _ ≤ (1 : ℚ) * 100 := mul_le_mul_of_nonneg_right hd (by norm_num)
          _ = 100 := by norm_num
    · rw [if_neg hc]
      norm_num

/-- C15: in a form with unique field identifiers, every listed skip count is at most
`Count`, every `SkipRate` lies in `[0, 100]`, and `CompletionRate` lies in `[0, 100]`
and is 0 when the form has no field or the history is empty. -/
theorem percentages_in_range (form : Form) (responses : List Response) (today : Int)
    (rangeOrder : String → List (String × Nat) → List (String × Nat))
    (hnd : (form.Fields.map Field.ID).Nodup) :
    (∀ s ∈ (computeAnalytics form responses today rangeOrder).SkippedFields,
        s.SkipCount ≤ (computeAnalytics form responses today rangeOrder).Count ∧
          0 ≤ s.SkipRate ∧ s.SkipRate ≤ 100) ∧
      0 ≤ (computeAnalytics form responses today rangeOrder).CompletionRate ∧
      (computeAnalytics form responses today rangeOrder).CompletionRate ≤ 100 ∧
      (form.Fields = [] ∨ responses = [] →
        (computeAnalytics form responses today rangeOrder).CompletionRate = 0) := by
  have hcount : (computeAnalytics form responses today rangeOrder).Count = responses.length :=
    scanResponses_count form responses
  refine ⟨?_, (completionRate_bounds form responses hnd).1,
    (completionRate_bounds form responses hnd).2, ?_⟩
  · intro s hs
    obtain ⟨g, _, _, _, _, hc⟩ := skippedFields_mem hs
    have hrate := skippedFields_rate hs
    have hle : s.SkipCount ≤ responses.length := by
      rw [hc]
      exact scanResponses_skips_le form responses hnd g.ID
    rw [hcount]
    refine ⟨hle, ?_, ?_⟩
    · rw [hrate]
      split_ifs
      · positivity
      · exact le_refl _
    · rw [hrate]
      split_ifs with hpos
      · have hpos2 : 0 < (scanResponses form responses).count := hpos
        rw [scanResponses_count] at hpos2 ⊢
        have hN : (0 : ℚ) < (responses.length : ℚ) := by exact_mod_cast hpos2
        have hq : (s.SkipCount : ℚ) ≤ (responses.length : ℚ) := by exact_mod_cast hle
        have hd := (div_le_one hN).mpr hq
        calc _ ≤ (1 : ℚ) * 100 := mul_le_mul_of_nonneg_right hd (by norm_num)
          _ = 100 := by norm_num
      · norm_num
  · intro h
    show completionRate form.Fields (scanResponses form responses).count
      (scanResponses form responses).fieldCounts (scanResponses form responses).fieldSkips = 0
    rw [scanResponses_count]
    unfold completionRate
    rcases h with h | h
    · rw [h]
    · rw [h]
      cases form.Fields <;> simp

/-- C15, at the form `q1, q2` with the history of three submissions. -/
theorem percentages_in_range_witness :
    (∀ s ∈ (computeAnalytics formSurvey historyRatings 0 storedOrder).SkippedFields,
        s.SkipCount ≤ 3 ∧ 0 ≤ s.SkipRate ∧ s.SkipRate ≤ 100) ∧
      0 ≤ (computeAnalytics formSurvey historyRatings 0 storedOrder).CompletionRate ∧
      (computeAnalytics formSurvey historyRatings 0 storedOrder).CompletionRate ≤ 100 :=
  ⟨(percentages_in_range formSurvey historyRatings 0 storedOrder (by decide)).1,
    (percentages_in_range formSurvey historyRatings 0 storedOrder (by decide)).2.1,
    (percentages_in_range formSurvey historyRatings 0 storedOrder (by decide)).2.2.1⟩

/-! ## Lemmas on the registry of the observers -/

theorem registered_register (clients : Clients) (cl : WsClient) (formID : String) :
    registered (register clients cl) formID =
      if formID = cl.formID then ((clients.getD cl.formID GoMap.empty).set cl true).keys
      else registered clients formID := by
  unfold registered register
  by_cases h : formID = cl.formID
  · subst h
    simp [GoMap.getD_set_self]
  · simp [GoMap.getD_set_ne _ _ _ h, h]

theorem registered_unregister (clients : Clients) (cl : WsClient) (formID : String) :
    registered (unregister clients cl) formID =
      if formID = cl.formID then ((clients.getD cl.formID GoMap.empty).erase cl).keys
      else registered clients formID := by
  unfold registered unregister
  cases hg : clients.get? cl.formID with
  | none =>
    by_cases h : formID = cl.formID
    · subst h
      simp [GoMap.getD, hg, GoMap.erase, GoMap.empty, GoMap.keys]
    · simp [h]
  | some set =>
    by_cases h : formID = cl.formID
    · subst h
      simp [GoMap.getD, GoMap.get?_set_self, hg]
    · simp [GoMap.getD_set_ne _ _ _ h, h]

theorem registered_initial (formID : String) : registered Clients.initial formID = [] := rfl

theorem mem_registered_register (clients : Clients) (cl x : WsClient) (formID : String) :
    x ∈ registered (register clients cl) formID ↔
      (x = cl ∧ formID = cl.formID) ∨ x ∈ registered clients formID := by
  rw [registered_register]
  by_cases h : formID = cl.formID
  · rw [if_pos h, GoMap.mem_keys_set_iff, h]
    simp [registered]
  · simp [h]

theorem mem_registered_unregister (clients : Clients) (cl x : WsClient) (formID : String) :
    x ∈ registered (unregister clients cl) formID ↔
      x ∈ registered clients formID ∧ ¬ (x = cl ∧ formID = cl.formID) := by
  rw [registered_unregister]
  by_cases h : formID = cl.formID
  · rw [if_pos h, GoMap.mem_keys_erase_iff, h]
    simp [registered, and_comm]
  · simp [h]

theorem nodup_registered_apply (clients : Clients) (call : RegistryCall)
    (h : ∀ formID, (registered clients formID).Nodup) :
    ∀ formID, (registered (call.apply clients) formID).Nodup := by
  intro formID
  cases call with
  | register cl =>
    simp only [RegistryCall.apply]
    rw [registered_register]
    split_ifs
    · exact GoMap.nodup_keys_set _ _ (h cl.formID)
    · exact h formID
  | unregister cl =>
    simp only [RegistryCall.apply]
    rw [registered_unregister]
    split_ifs
    · exact GoMap.nodup_keys_erase _ (h cl.formID)
    · exact h formID

theorem nodup_registered_runCalls (calls : List RegistryCall) (formID : String) :
    (registered (runCalls calls) formID).Nodup := by
  unfold runCalls
  have key : ∀ (clients : Clients), (∀ F, (registered clients F).Nodup) →
      ∀ F, (registered (calls.foldl RegistryCall.apply clients) F).Nodup := by
    induction calls with
    | nil => intro clients h; exact h
    | cons call rest ih =>
      intro clients h
      rw [List.foldl_cons]
      exact ih _ (nodup_registered_apply clients call h)
  apply key
  intro F
  simp [registered_initial]

theorem mem_registered_runCalls (calls : List RegistryCall) (cl : WsClient)
    (formID : String) :
    cl ∈ registered (runCalls calls) formID ↔
      cl.formID = formID ∧ lastRegistered calls cl = true := by
  unfold runCalls lastRegistered
  have key : ∀ (clients : Clients) (b : Bool),
      (∀ F, cl ∈ registered clients F ↔ cl.formID = F ∧ b = true) →
      ∀ F, cl ∈ registered (calls.foldl RegistryCall.apply clients) F ↔
        cl.formID = F ∧
          calls.foldl
            (fun b call =>
              match call with
              | .register c => if c = cl then true else b
              | .unregister c => if c = cl then false else b) b = true := by
    induction calls with
    | nil => intro clients b h; exact h
    | cons call rest ih =>
      intro clients b h
      rw [List.foldl_cons, List.foldl_cons]
      apply ih
      intro F
      cases call with
      | register c =>
        simp only [RegistryCall.apply]
        rw [mem_registered_register, h F]
        by_cases hc : c = cl
        · subst hc
          simp only [true_and, if_true, and_true]
          constructor
          · rintro (e | e)
            · exact e.symm
            · exact e.1
          · intro e
            exact Or.inl e.symm
        · have hc2 : ¬ cl = c := fun e => hc e.symm
          simp [hc, hc2]
      | unregister c =>
        simp only [RegistryCall.apply]
        rw [mem_registered_unregister, h F]
        by_cases hc : c = cl
        · subst hc
          simp only [true_and, if_true, Bool.false_eq_true, and_false, iff_false, not_and,
            not_not]
          intro e
          exact e.1.symm
        · have hc2 : ¬ cl = c := fun e => hc e.symm
          simp [hc, hc2]
  apply key
  intro F
  simp [registered_initial]

theorem writes_clients (clients : Clients) (formID : String) (payload : Value)
    (writeJSON : WsClient → GoMap String Value → Bool)
    (rangeOrder : List WsClient → List WsClient) :
    (BroadcastResponse clients formID payload writeJSON rangeOrder).writes.map Write.client =
      rangeOrder (registered clients formID) := by
  simp [BroadcastResponse, registered, List.map_map, Function.comp_def]

/-! ## The claims on the live subscriptions -/

/-- C13 as stated fails: the write to `observer1` fails during the broadcast to the
form `f1`, and after the broadcast `observer1` is still in the set of `f1`, which
is not the set of the handles whose write succeeded. -/
theorem failed_handle_stays_registered :
    (BroadcastResponse (runCalls callsThree) "f1" (.str "p") writeFirstFailing id).writes.map
        (fun w => (w.client, w.failed)) = [(observer2, false), (observer1, true)] ∧
      registered (BroadcastResponse (runCalls callsThree) "f1" (.str "p") writeFirstFailing
        id).clients "f1" = [observer2, observer1] ∧
      observer1 ∈ registered (BroadcastResponse (runCalls callsThree) "f1" (.str "p")
        writeFirstFailing id).clients "f1" := by
  refine ⟨by decide, by decide, by decide⟩

/-- C13, amended: when the write to a handle of the form fails during a broadcast,
the error is dropped: the registry is left as it was, so the handle stays in the
set of the form, the write is still attempted to every handle of the set with the
message `response_created`, and the broadcast returns. -/
theorem broadcast_ignores_failures (clients : Clients) (formID : String) (payload : Value)
    (writeJSON : WsClient → GoMap String Value → Bool)
    (rangeOrder : List WsClient → List WsClient)
    (hperm : ∀ l, (rangeOrder l).Perm l) (cl : WsClient)
    (hcl : cl ∈ registered clients formID)
    (hfail : writeJSON cl (responseCreated payload) = true) :
    (BroadcastResponse clients formID payload writeJSON rangeOrder).clients = clients ∧
      cl ∈ registered (BroadcastResponse clients formID payload writeJSON rangeOrder).clients
        formID ∧
      (∃ w ∈ (BroadcastResponse clients formID payload writeJSON rangeOrder).writes,
        w.client = cl ∧ w.failed = true) ∧
      (∀ other ∈ registered clients formID,
        ∃ w ∈ (BroadcastResponse clients formID payload writeJSON rangeOrder).writes,
          w.client = other ∧ w.message = responseCreated payload) := by
  have hall : ∀ other ∈ registered clients formID,
      (⟨other, responseCreated payload, writeJSON other (responseCreated payload)⟩ : Write) ∈
        (BroadcastResponse clients formID payload writeJSON rangeOrder).writes := by
    intro other ho
    have hm : other ∈ rangeOrder (registered clients formID) := (hperm _).mem_iff.mpr ho
    exact List.mem_map_of_mem _ hm
  refine ⟨rfl, hcl, ⟨_, hall cl hcl, rfl, hfail⟩, ?_⟩
  intro other ho
  exact ⟨_, hall other ho, rfl, rfl⟩

/-- C13, amended, at the two observers of `f1`, the write to the first one failing. -/
theorem broadcast_ignores_failures_witness :
    observer1 ∈ registered (BroadcastResponse (runCalls callsThree) "f1" (.str "p")
        writeFirstFailing id).clients "f1" ∧
      ∃ w ∈ (BroadcastResponse (runCalls callsThree) "f1" (.str "p") writeFirstFailing
          id).writes, w.client = observer2 ∧ w.message = responseCreated (.str "p") :=
  ⟨(broadcast_ignores_failures (runCalls callsThree) "f1" (.str "p") writeFirstFailing id
      (fun l => List.Perm.refl l) observer1 (by decide) rfl).2.1,
    (broadcast_ignores_failures (runCalls callsThree) "f1" (.str "p") writeFirstFailing id
      (fun l => List.Perm.refl l) observer1 (by decide) rfl).2.2.2 observer2 (by decide)⟩

/-- C14: after any sequence of `register` and `unregister` calls, a broadcast to
`formID` writes exactly once to every handle that is currently registered and has
that form identifier, and to no other handle; every write carries the message
`{type: "response_created", data: payload}`; with no handle registered for `formID`
nothing is written; and the registry is left as it was. -/
theorem broadcast_reaches_form_observers (calls : List RegistryCall) (formID : String)
    (payload : Value) (writeJSON : WsClient → GoMap String Value → Bool)
    (rangeOrder : List WsClient → List WsClient)
    (hperm : ∀ l, (rangeOrder l).Perm l) :
    (∀ cl, ((BroadcastResponse (runCalls calls) formID payload writeJSON
          rangeOrder).writes.map Write.client).count cl =
        if lastRegistered calls cl = true ∧ cl.formID = formID then 1 else 0) ∧
      (∀ w ∈ (BroadcastResponse (runCalls calls) formID payload writeJSON rangeOrder).writes,
        w.message = ⟨[("type", .str "response_created"), ("data", payload)]⟩) ∧
      (∀ other, other ≠ formID → ∀ cl ∈ registered (runCalls calls) other,
        ∀ w ∈ (BroadcastResponse (runCalls calls) formID payload writeJSON rangeOrder).writes,
          w.client ≠ cl) ∧
      (registered (runCalls calls) formID = [] →
        (BroadcastResponse (runCalls calls) formID payload writeJSON rangeOrder).writes = []) ∧
      (BroadcastResponse (runCalls calls) formID payload writeJSON rangeOrder).clients =
        runCalls calls := by
  have hw := writes_clients (runCalls calls) formID payload writeJSON rangeOrder
  have hmem : ∀ cl, cl ∈ (BroadcastResponse (runCalls calls) formID payload writeJSON
      rangeOrder).writes.map Write.client ↔ cl ∈ registered (runCalls calls) formID := by
    intro cl
    rw [hw]
    exact (hperm _).mem_iff
  refine ⟨?_, ?_, ?_, ?_, rfl⟩
  · intro cl
    rw [hw, (hperm _).count_eq, List.count_eq_of_nodup (nodup_registered_runCalls calls formID)]
    have h := mem_registered_runCalls calls cl formID
    by_cases hm : cl ∈ registered (runCalls calls) formID
    · rw [if_pos hm, if_pos ⟨(h.mp hm).2, (h.mp hm).1⟩]
    · rw [if_neg hm, if_neg (fun e => hm (h.mpr ⟨e.2, e.1⟩))]
  · intro w hw2
    simp only [BroadcastResponse, List.mem_map] at hw2
    obtain ⟨cl, _, rfl⟩ := hw2
    rfl
  · intro other hne cl hcl w hw2 he
    have h1 : cl ∈ registered (runCalls calls) formID :=
      (hmem cl).mp (he ▸ List.mem_map_of_mem Write.client hw2)
    have e1 := ((mem_registered_runCalls calls cl formID).mp h1).1
    have e2 := ((mem_registered_runCalls calls cl other).mp hcl).1
    exact hne (e2.symm.trans e1)
  · intro hnil
    have h2 : rangeOrder (registered (runCalls calls) formID) = [] := by
      rw [hnil]
      exact List.Perm.eq_nil (hperm [])
    rw [h2] at hw
    exact List.map_eq_nil_iff.mp hw

/-- C14, at the two observers of `f1` and the observer of `f2`, after a fourth
observer of `f1` has left: the broadcast to `f1` writes once to each of the two, not
to the observer of `f2` and not to the one that left; a broadcast to `f9`, which has
no observer, writes nothing. -/
theorem broadcast_reaches_form_observers_witness :
    ((BroadcastResponse (runCalls callsThree) "f1" (.str "p") writeFailing
          id).writes.map Write.client).count observer1 = 1 ∧
      ((BroadcastResponse (runCalls callsThree) "f1" (.str "p") writeFailing
          id).writes.map Write.client).count observer2 = 1 ∧
      ((BroadcastResponse (runCalls callsThree) "f1" (.str "p") writeFailing
          id).writes.map Write.client).count observer3 = 0 ∧
      ((BroadcastResponse (runCalls callsThree) "f1" (.str "p") writeFailing
          id).writes.map Write.client).count ⟨4, "f1"⟩ = 0 ∧
      (BroadcastResponse (runCalls callsThree) "f9" (.str "p") writeFailing id).writes = [] :=
  ⟨(broadcast_reaches_form_observers callsThree "f1" (.str "p") writeFailing id
      (fun l => List.Perm.refl l)).1 observer1,
    (broadcast_reaches_form_observers callsThree "f1" (.str "p") writeFailing id
      (fun l => List.Perm.refl l)).1 observer2,
    (broadcast_reaches_form_observers callsThree "f1" (.str "p") writeFailing id
      (fun l => List.Perm.refl l)).1 observer3,
    (broadcast_reaches_form_observers callsThree "f1" (.str "p") writeFailing id
      (fun l => List.Perm.refl l)).1 ⟨4, "f1"⟩,
    (broadcast_reaches_form_observers callsThree "f9" (.str "p") writeFailing id
      (fun l => List.Perm.refl l)).2.2.2.1 rfl⟩

end FormBuilder
